import Mathlib

/-!
Shallow embedding of the RDMA block pool in `src/brpc/rdma/block_pool.cpp`.

Addresses are modelled as `Nat` (the null pointer is `0`), the installed
prefix of `g_regions` as a `List Region`, the per-class/per-bucket idle
lists and the per-class ready lists as Lean lists.  The nondeterministic
inputs of `ExtendBlockPool` (the address handed out by `posix_memalign`,
the key returned by the registration callback, and the number of
`IdleNode` objects the object pool can still supply) are explicit
parameters.  A fatal `CHECK` failure is modelled by returning `none`.
-/

namespace BlockPool

/-- Modelled from the spec: the base block size `B` agreed with the external
buffer library (`butil::IOBuf::DEFAULT_BLOCK_SIZE`, whose definition is not
part of the sources here); the spec fixes `B = 8192`. -/
def DEFAULT_BLOCK_SIZE : Nat := 8192

/-- Number of bytes in 1MB (`BYTES_IN_MB` in the source). -/
def BYTES_IN_MB : Nat := 1048576

/-- Hard cap on the regions array (`MAX_REGIONS` in the source). -/
def MAX_REGIONS : Nat := 16

/-- Number of size classes (`BLOCK_SIZE_COUNT` in the source). -/
def BLOCK_SIZE_COUNT : Nat := 4

/-- One registered memory region (`struct Region`). -/
structure Region where
  start : Nat
  size : Nat
  block_type : Nat
  id : Nat
deriving Repr, DecidableEq

/-- A free-block run descriptor (`struct IdleNode`); the `next` pointer is
replaced by list structure. -/
structure IdleNode where
  start : Nat
  len : Nat
deriving Repr, DecidableEq

/-- The mutable global state of the pool: `g_buckets`, `g_max_regions`,
`g_regions`/`g_region_num`, `g_block_size` and `g_info`. -/
structure PoolState where
  g_buckets : Nat
  g_max_regions : Nat
  g_regions : List Region
  g_block_size : List Nat
  idle_list : List (List (List IdleNode))
  ready_list : List (List IdleNode)
deriving Repr, DecidableEq

/-- The values the pool assigns to `errno`. -/
inductive Err where
  | EINVAL
  | ENOMEM
  | ERANGE
deriving Repr, DecidableEq

/-- Read `g_info->idle_list[c][b]`. -/
def getIdle (s : PoolState) (c b : Nat) : List IdleNode :=
  (s.idle_list.getD c []).getD b []

/-- Write `g_info->idle_list[c][b]`. -/
def setIdle (s : PoolState) (c b : Nat) (l : List IdleNode) : PoolState :=
  { s with idle_list := s.idle_list.set c ((s.idle_list.getD c []).set b l) }

/-- Read `g_info->ready_list[c]`. -/
def getReady (s : PoolState) (c : Nat) : List IdleNode :=
  s.ready_list.getD c []

/-- Write `g_info->ready_list[c]`. -/
def setReady (s : PoolState) (c : Nat) (l : List IdleNode) : PoolState :=
  { s with ready_list := s.ready_list.set c l }

/-- Does region `r` contain address `addr` (the range test in `GetRegion`)? -/
def regionContains (r : Region) (addr : Nat) : Bool :=
  decide (r.start ≤ addr) && decide (addr < r.start + r.size)

/-- The scan over the installed prefix of `g_regions` in `GetRegion`. -/
def findRegion (rs : List Region) (addr : Nat) : Option Region :=
  rs.find? (fun r => regionContains r addr)

/-- `GetRegion(buf)`: null yields no region; otherwise the first installed
region whose `[start, start + size)` range contains `buf`. -/
def GetRegion (s : PoolState) (addr : Nat) : Option Region :=
  if addr = 0 then none else findRegion s.g_regions addr

/-- `GetRegionId` together with the `errno` effect of the inner `GetRegion`
call (`EINVAL` exactly on null input). -/
def GetRegionIdE (s : PoolState) (addr : Nat) : Nat × Option Err :=
  if addr = 0 then (0, some Err.EINVAL)
  else
    match findRegion s.g_regions addr with
    | none => (0, none)
    | some r => (r.id, none)

/-- `GetRegionId(buf)`: the `lkey` of the region containing `buf`, or 0. -/
def GetRegionId (s : PoolState) (addr : Nat) : Nat :=
  (GetRegionIdE s addr).1

/-- `GetBlockType(buf)`: the size class of the region containing `buf`,
or -1 when there is none. -/
def GetBlockType (s : PoolState) (addr : Nat) : Int :=
  match GetRegion s addr with
  | none => -1
  | some r => (r.block_type : Int)

/-- `GetRegionNum()`. -/
def GetRegionNum (s : PoolState) : Nat :=
  s.g_regions.length

/-- The bucket an address belongs to, relative to its region:
`((addr - region.start) * g_buckets) / region.size`. -/
def bucketOf (r : Region) (addr : Nat) (buckets : Nat) : Nat :=
  (addr - r.start) * buckets / r.size

/-- The size regularization performed by `ExtendBlockPool`:
`region_size = size_mb * BYTES_IN_MB / block_size / buckets * (block_size * buckets)`. -/
def regularize (size_mb bs buckets : Nat) : Nat :=
  size_mb * BYTES_IN_MB / bs / buckets * (bs * buckets)

/-- Nondeterministic environment of one `ExtendBlockPool` call: whether
`posix_memalign` succeeds and which address it yields, the key returned by
the registration callback `g_cb`, and how many `IdleNode` objects the
object pool can still hand out. -/
structure ExtendEnv where
  memOk : Bool
  base : Nat
  cbId : Nat
  poolNodes : Nat
deriving Repr, DecidableEq

/-- Result of `ExtendBlockPool`: returned pointer, new state, and the
`errno` value the call itself assigns (if any). -/
structure ExtendResult where
  ret : Option Nat
  state : PoolState
  err : Option Err
deriving Repr, DecidableEq

/-- The region a successful `ExtendBlockPool(size_mb, bt)` installs at
`g_regions[g_region_num++]`. -/
def extendedRegion (s : PoolState) (env : ExtendEnv) (size_mb bt : Nat) : Region :=
  ⟨env.base, regularize size_mb (s.g_block_size.getD bt 0) s.g_buckets, bt, env.cbId % 2 ^ 32⟩

/-- The `g_buckets` bucket-extent nodes a successful extension creates
(`node[i]` covers `[start + i*(region_size/g_buckets), ...)`). -/
def extendNodes (s : PoolState) (env : ExtendEnv) (size_mb bt : Nat) : List IdleNode :=
  let rsize := regularize size_mb (s.g_block_size.getD bt 0) s.g_buckets
  let u := rsize / s.g_buckets
  (List.range s.g_buckets).map fun i => IdleNode.mk (env.base + i * u) u

/-- The state after a successful extension: the region is appended and
the bucket-extent nodes are pushed (in index order, hence reversed) onto
`ready_list[bt]`. -/
def extendState (s : PoolState) (env : ExtendEnv) (size_mb bt : Nat) : PoolState :=
  { s with
    g_regions := s.g_regions ++ [extendedRegion s env size_mb bt]
    ready_list := s.ready_list.set bt
      ((extendNodes s env size_mb bt).reverse ++ s.ready_list.getD bt []) }

/-- `ExtendBlockPool(region_size, block_type)`. -/
def ExtendBlockPool (s : PoolState) (env : ExtendEnv) (size_mb bt : Nat) : ExtendResult :=
  if size_mb < 64 then ⟨none, s, some Err.EINVAL⟩
  else if s.g_regions.length = s.g_max_regions then ⟨none, s, some Err.ENOMEM⟩
  else if env.memOk = false then ⟨none, s, none⟩
  else if env.cbId % 2 ^ 32 = 0 then ⟨none, s, none⟩
  else if env.poolNodes < s.g_buckets then ⟨none, s, none⟩
  else ⟨some env.base, extendState s env size_mb bt, none⟩

/-- The walk of `ready_list[block_type]` in `PickReadyBlocks`: returns the
first node whose bucket is `index` together with the remaining list, or
`(none, unchanged list)` when no node matches; `none` models the fatal
`CHECK(r != NULL)` hitting a node that lies in no region. -/
def pickScan (s : PoolState) (index : Nat) :
    List IdleNode → Option (Option IdleNode × List IdleNode)
  | [] => some (none, [])
  | n :: rest =>
    match GetRegion s n.start with
    | none => none
    | some r =>
      if bucketOf r n.start s.g_buckets = index then some (some n, rest)
      else (pickScan s index rest).map fun p => (p.1, n :: p.2)

/-- `PickReadyBlocks(block_type, index)`: detach the first matching ready
node and make it the (sole) content of `idle_list[block_type][index]`. -/
def PickReadyBlocks (s : PoolState) (bt index : Nat) : Option PoolState :=
  match pickScan s index (getReady s bt) with
  | none => none
  | some (none, _) => some s
  | some (some n, rest) => some (setIdle (setReady s bt rest) bt index [n])

/-- Result of `AllocBlockFrom`/`AllocBlock`. -/
structure AllocResult where
  ptr : Option Nat
  state : PoolState
  err : Option Err
deriving Repr, DecidableEq

/-- Lines 271-283 of `AllocBlockFrom`: take the front block of the head
idle node, carving the node in place when it is longer than one block and
popping it when it is exactly one block; `none` models the fatal
`CHECK(node->len == g_block_size[block_type])`. -/
def takeFromIdle (s : PoolState) (bt index : Nat) : Option AllocResult :=
  match getIdle s bt index with
  | [] => some ⟨none, s, none⟩
  | n :: rest =>
    let bs := s.g_block_size.getD bt 0
    if bs < n.len then
      some ⟨some n.start, setIdle s bt index ({ start := n.start + bs, len := n.len - bs } :: rest), none⟩
    else if n.len = bs then
      some ⟨some n.start, setIdle s bt index rest, none⟩
    else none

/-- `AllocBlockFrom(block_type)`; `index` is the value of
`butil::fast_rand() % g_buckets` and `incr_mb` the (clamped) value of
`FLAGS_rdma_memory_pool_increase_size_mb`. -/
def AllocBlockFrom (s : PoolState) (env : ExtendEnv) (incr_mb bt index : Nat) :
    Option AllocResult :=
  if (getIdle s bt index).isEmpty then
    match PickReadyBlocks s bt index with
    | none => none
    | some s1 =>
      if (getIdle s1 bt index).isEmpty then
        match ExtendBlockPool s1 env incr_mb bt with
        | ⟨none, sfail, err⟩ => some ⟨none, sfail, err⟩
        | ⟨some _, sok, _⟩ =>
          match PickReadyBlocks sok bt index with
          | none => none
          | some s2 => takeFromIdle s2 bt index
      else takeFromIdle s1 bt index
  else takeFromIdle s bt index

/-- `AllocBlock(size)`. -/
def AllocBlock (s : PoolState) (env : ExtendEnv) (incr_mb index size : Nat) :
    Option AllocResult :=
  if size = 0 ∨ s.g_block_size.getD (BLOCK_SIZE_COUNT - 1) 0 < size then
    some ⟨none, s, some Err.EINVAL⟩
  else
    match (List.range BLOCK_SIZE_COUNT).find? (fun i => decide (size ≤ s.g_block_size.getD i 0)) with
    | some i => AllocBlockFrom s env incr_mb i index
    | none => some ⟨none, s, none⟩

/-- Result of `DeallocBlock`. -/
structure DeallocResult where
  ret : Int
  state : PoolState
  err : Option Err
deriving Repr, DecidableEq

/-- `DeallocBlock(buf)`; `nodeAvail` tells whether the `IdleNode` object
pool can supply a node. -/
def DeallocBlock (s : PoolState) (nodeAvail : Bool) (buf : Nat) : DeallocResult :=
  if buf = 0 then ⟨-1, s, some Err.EINVAL⟩
  else
    match GetRegion s buf with
    | none => ⟨-1, s, some Err.ERANGE⟩
    | some r =>
      if nodeAvail = false then ⟨0, s, none⟩
      else
        let bt := r.block_type
        let bs := s.g_block_size.getD bt 0
        let index := (buf - r.start) * s.g_buckets / r.size
        ⟨0, setIdle s bt index ({ start := buf, len := bs } :: getIdle s bt index), none⟩

/-- The pool state `InitBlockPool` builds before its first extension: flag
clamping, empty idle/ready lists, and the block-size table
`{B, 2B, 4B, 8B}`. -/
def initState (max_regions_flag buckets_flag : Nat) : PoolState :=
  let mr := if max_regions_flag < 1 then 1 else max_regions_flag
  let gmr := if mr < MAX_REGIONS then mr else MAX_REGIONS
  let K := if 1 ≤ buckets_flag then buckets_flag else 1
  let bsize := DEFAULT_BLOCK_SIZE
  { g_buckets := K
    g_max_regions := gmr
    g_regions := []
    g_block_size := [bsize, 2 * bsize, 4 * bsize, 8 * bsize]
    idle_list := List.replicate BLOCK_SIZE_COUNT (List.replicate K [])
    ready_list := List.replicate BLOCK_SIZE_COUNT [] }

/-- `InitBlockPool(cb)` (happy path of the bookkeeping allocation): clamp
the flags, build the empty lists, and perform the first extension with
class `BLOCK_DEFAULT = 0`. -/
def InitBlockPool (initial_mb max_regions_flag buckets_flag : Nat) (env : ExtendEnv) :
    ExtendResult :=
  let imb := if initial_mb < 64 then 64 else initial_mb
  ExtendBlockPool (initState max_regions_flag buckets_flag) env imb 0

/-- A canonical extension environment for concrete runs: `posix_memalign`
succeeds with a fresh base past all installed regions, the callback
returns key 1, and the object pool has enough nodes. -/
def envFor (s : PoolState) : ExtendEnv :=
  ⟨true, 2 ^ 30 + s.g_regions.length * 2 ^ 30, 1, s.g_buckets⟩

/-- Run `count` calls of `AllocBlock size` in bucket 0, requiring every
call to return a non-null pointer and the region count to stay at most
`cap` after every call; yields the final state, or `none` when a call
fails or the bound is exceeded. -/
def allocSeqLe (incr_mb size cap : Nat) : Nat → PoolState → Option PoolState
  | 0, s => some s
  | count + 1, s =>
    match AllocBlock s (envFor s) incr_mb 0 size with
    | none => none
    | some res =>
      if res.ptr.isSome && decide (res.state.g_regions.length ≤ cap) then
        allocSeqLe incr_mb size cap count res.state
      else none

/-! ## Separation and well-formedness predicates -/

/-- Two live heap chunks never overlap; a region occupies at least one
byte of heap even when its regularized size is zero (`malloc` never hands
out an address inside a live allocation). -/
def RegionSep (r1 r2 : Region) : Prop :=
  r1.start + max r1.size 1 ≤ r2.start ∨ r2.start + max r2.size 1 ≤ r1.start

/-- Well-formedness of one installed region. -/
def RegionWF (bs : List Nat) (K : Nat) (r : Region) : Prop :=
  r.block_type < BLOCK_SIZE_COUNT ∧ r.start ≠ 0 ∧ r.id ≠ 0 ∧
    (bs.getD r.block_type 0 * K) ∣ r.size

/-- Invariant of a node on `idle_list[c][b]`: it lies in an installed
region of class `c`, its length is a nonzero multiple of the class size,
its bucket is `b`, and it is either a single block or a run contained in
bucket `b`'s extent of its region. -/
def NodeInv (s : PoolState) (c b : Nat) (n : IdleNode) : Prop :=
  ∃ r ∈ s.g_regions, GetRegion s n.start = some r ∧
    r.block_type = c ∧ n.len ≠ 0 ∧ s.g_block_size.getD c 0 ∣ n.len ∧
    bucketOf r n.start s.g_buckets = b ∧
    (n.len = s.g_block_size.getD c 0 ∨
      (b * (r.size / s.g_buckets) ≤ n.start - r.start ∧
       n.start - r.start + n.len ≤ (b + 1) * (r.size / s.g_buckets)))

/-- Invariant of a node on `ready_list[c]`: its start address lies in the
heap footprint of some installed region, and if an installed region
actually contains it then the node is a nonempty bucket extent of that
region with matching class. -/
def ReadyInv (s : PoolState) (c : Nat) (n : IdleNode) : Prop :=
  (∃ r ∈ s.g_regions, r.start ≤ n.start ∧ n.start < r.start + max r.size 1) ∧
  ∀ r ∈ s.g_regions, GetRegion s n.start = some r →
    r.block_type = c ∧ n.len ≠ 0 ∧ s.g_block_size.getD c 0 ∣ n.len ∧
    bucketOf r n.start s.g_buckets * (r.size / s.g_buckets) ≤ n.start - r.start ∧
    n.start - r.start + n.len ≤ (bucketOf r n.start s.g_buckets + 1) * (r.size / s.g_buckets)

/-- The pool invariant: configuration bounds, the block-size table, list
shapes, region well-formedness and separation, and the per-node
invariants of every idle shard and ready list. -/
def Inv (s : PoolState) : Prop :=
  1 ≤ s.g_buckets ∧
  s.g_max_regions ≤ MAX_REGIONS ∧
  s.g_regions.length ≤ s.g_max_regions ∧
  s.g_block_size = [DEFAULT_BLOCK_SIZE, 2 * DEFAULT_BLOCK_SIZE,
    4 * DEFAULT_BLOCK_SIZE, 8 * DEFAULT_BLOCK_SIZE] ∧
  s.idle_list.length = BLOCK_SIZE_COUNT ∧
  (∀ li ∈ s.idle_list, li.length = s.g_buckets) ∧
  s.ready_list.length = BLOCK_SIZE_COUNT ∧
  (∀ r ∈ s.g_regions, RegionWF s.g_block_size s.g_buckets r) ∧
  s.g_regions.Pairwise RegionSep ∧
  (∀ c, c < BLOCK_SIZE_COUNT → ∀ b, b < s.g_buckets → ∀ n ∈ getIdle s c b, NodeInv s c b n) ∧
  (∀ c, c < BLOCK_SIZE_COUNT → ∀ n ∈ getReady s c, ReadyInv s c n)

/-- The contract of `posix_memalign`: a successful allocation returns a
nonzero address whose chunk does not overlap any live region. -/
def FreshBase (rs : List Region) (base size : Nat) : Prop :=
  base ≠ 0 ∧ ∀ r ∈ rs, r.start + max r.size 1 ≤ base ∨ base + max size 1 ≤ r.start

/-- Freshness of an extension environment with respect to a state, for
any of the four classes an extension may be asked for. -/
def EnvFresh (s : PoolState) (env : ExtendEnv) (mb : Nat) : Prop :=
  ∀ bt, bt < BLOCK_SIZE_COUNT →
    FreshBase s.g_regions env.base (regularize mb (s.g_block_size.getD bt 0) s.g_buckets)

/-- One observable operation on an initialized pool: an `AllocBlock` call
(with a fresh backing address should it extend), a `DeallocBlock` call,
or a bare ready-list drain `PickReadyBlocks` as performed under
`extend_lock`.  `none` results (fatal `CHECK` aborts) have no successor
state. -/
inductive Step : PoolState → PoolState → Prop where
  | alloc (s : PoolState) (env : ExtendEnv) (incr_mb index size : Nat) (res : AllocResult) :
      EnvFresh s env incr_mb → index < s.g_buckets →
      AllocBlock s env incr_mb index size = some res → Step s res.state
  | dealloc (s : PoolState) (nodeAvail : Bool) (buf : Nat) :
      Step s (DeallocBlock s nodeAvail buf).state
  | pick (s s' : PoolState) (bt index : Nat) :
      bt < BLOCK_SIZE_COUNT → index < s.g_buckets →
      PickReadyBlocks s bt index = some s' → Step s s'

/-- States reachable from a (possibly failing) `InitBlockPool` call by
any sequence of operations. -/
inductive Reachable : PoolState → Prop where
  | init (initial_mb max_regions_flag buckets_flag : Nat) (env : ExtendEnv) :
      EnvFresh (initState max_regions_flag buckets_flag) env
        (if initial_mb < 64 then 64 else initial_mb) →
      Reachable (InitBlockPool initial_mb max_regions_flag buckets_flag env).state
  | step (s s' : PoolState) : Reachable s → Step s s' → Reachable s'

/-! ## Projection lemmas for the state updaters -/

@[simp] theorem setIdle_g_regions (s : PoolState) (c b : Nat) (l : List IdleNode) :
    (setIdle s c b l).g_regions = s.g_regions := rfl

@[simp] theorem setIdle_g_block_size (s : PoolState) (c b : Nat) (l : List IdleNode) :
    (setIdle s c b l).g_block_size = s.g_block_size := rfl

@[simp] theorem setIdle_g_buckets (s : PoolState) (c b : Nat) (l : List IdleNode) :
    (setIdle s c b l).g_buckets = s.g_buckets := rfl

@[simp] theorem setIdle_g_max_regions (s : PoolState) (c b : Nat) (l : List IdleNode) :
    (setIdle s c b l).g_max_regions = s.g_max_regions := rfl

@[simp] theorem setIdle_ready_list (s : PoolState) (c b : Nat) (l : List IdleNode) :
    (setIdle s c b l).ready_list = s.ready_list := rfl

@[simp] theorem setReady_g_regions (s : PoolState) (c : Nat) (l : List IdleNode) :
    (setReady s c l).g_regions = s.g_regions := rfl

@[simp] theorem setReady_g_block_size (s : PoolState) (c : Nat) (l : List IdleNode) :
    (setReady s c l).g_block_size = s.g_block_size := rfl

@[simp] theorem setReady_g_buckets (s : PoolState) (c : Nat) (l : List IdleNode) :
    (setReady s c l).g_buckets = s.g_buckets := rfl

@[simp] theorem setReady_g_max_regions (s : PoolState) (c : Nat) (l : List IdleNode) :
    (setReady s c l).g_max_regions = s.g_max_regions := rfl

@[simp] theorem setReady_idle_list (s : PoolState) (c : Nat) (l : List IdleNode) :
    (setReady s c l).idle_list = s.idle_list := rfl

@[simp] theorem GetRegion_setIdle (s : PoolState) (c b : Nat) (l : List IdleNode) (a : Nat) :
    GetRegion (setIdle s c b l) a = GetRegion s a := rfl

@[simp] theorem GetRegion_setReady (s : PoolState) (c : Nat) (l : List IdleNode) (a : Nat) :
    GetRegion (setReady s c l) a = GetRegion s a := rfl

@[simp] theorem getReady_setIdle (s : PoolState) (c b : Nat) (l : List IdleNode) (c' : Nat) :
    getReady (setIdle s c b l) c' = getReady s c' := rfl

@[simp] theorem getIdle_setReady (s : PoolState) (c : Nat) (l : List IdleNode) (c' b' : Nat) :
    getIdle (setReady s c l) c' b' = getIdle s c' b' := rfl

@[simp] theorem setIdle_idle_length (s : PoolState) (c b : Nat) (l : List IdleNode) :
    (setIdle s c b l).idle_list.length = s.idle_list.length := by
  simp [setIdle]

theorem getD_set_self {α : Type} (l : List α) (i : Nat) (a d : α) (h : i < l.length) :
    (l.set i a).getD i d = a := by
  simp [List.getD_eq_getElem?_getD, List.getElem?_set_self, h]

theorem getD_set_ne {α : Type} (l : List α) (i j : Nat) (a d : α) (h : i ≠ j) :
    (l.set i a).getD j d = l.getD j d := by
  simp [List.getD_eq_getElem?_getD, List.getElem?_set_ne h]

theorem getIdle_setIdle_self (s : PoolState) (c b : Nat) (l : List IdleNode)
    (hc : c < s.idle_list.length) (hb : b < (s.idle_list.getD c []).length) :
    getIdle (setIdle s c b l) c b = l := by
  simp only [getIdle, setIdle]
  rw [getD_set_self _ _ _ _ hc, getD_set_self _ _ _ _ hb]

theorem getIdle_setIdle_ne (s : PoolState) (c b : Nat) (l : List IdleNode)
    (c' b' : Nat) (h : c' ≠ c ∨ b' ≠ b) :
    getIdle (setIdle s c b l) c' b' = getIdle s c' b' := by
  simp only [getIdle, setIdle]
  rcases h with h | h
  · rw [getD_set_ne _ _ _ _ _ (Ne.symm h)]
  · by_cases hc : c' = c
    · subst hc
      by_cases hlt : c' < s.idle_list.length
      · rw [getD_set_self _ _ _ _ hlt, getD_set_ne _ _ _ _ _ (Ne.symm h)]
      · rw [List.set_eq_of_length_le (Nat.le_of_not_lt hlt)]
    · rw [getD_set_ne _ _ _ _ _ (Ne.symm hc)]

theorem getReady_setReady_self (s : PoolState) (c : Nat) (l : List IdleNode)
    (hc : c < s.ready_list.length) :
    getReady (setReady s c l) c = l := by
  simp only [getReady, setReady]
  rw [getD_set_self _ _ _ _ hc]

theorem getReady_setReady_ne (s : PoolState) (c : Nat) (l : List IdleNode)
    (c' : Nat) (h : c' ≠ c) :
    getReady (setReady s c l) c' = getReady s c' := by
  simp only [getReady, setReady]
  rw [getD_set_ne _ _ _ _ _ (Ne.symm h)]

theorem setIdle_inner_length (s : PoolState) (c b : Nat) (l : List IdleNode) (c' : Nat) :
    ((setIdle s c b l).idle_list.getD c' []).length = (s.idle_list.getD c' []).length := by
  simp only [setIdle]
  by_cases hc : c' = c
  · subst hc
    by_cases hlt : c' < s.idle_list.length
    · rw [getD_set_self _ _ _ _ hlt, List.length_set]
    · rw [List.set_eq_of_length_le (Nat.le_of_not_lt hlt)]
  · rw [getD_set_ne _ _ _ _ _ (Ne.symm hc)]

/-! ## Facts about the region scan -/

theorem regionContains_iff (r : Region) (a : Nat) :
    regionContains r a = true ↔ r.start ≤ a ∧ a < r.start + r.size := by
  simp [regionContains]

theorem findRegion_mem {rs : List Region} {a : Nat} {r : Region}
    (h : findRegion rs a = some r) :
    r ∈ rs ∧ r.start ≤ a ∧ a < r.start + r.size := by
  refine ⟨List.mem_of_find?_eq_some h, ?_⟩
  have := List.find?_some h
  exact (regionContains_iff r a).1 this

theorem findRegion_append (rs rs' : List Region) (a : Nat) :
    findRegion (rs ++ rs') a = (findRegion rs a).or (findRegion rs' a) := by
  simp [findRegion, List.find?_append]

theorem findRegion_append_of_some {rs : List Region} {a : Nat} {r : Region}
    (h : findRegion rs a = some r) (rs' : List Region) :
    findRegion (rs ++ rs') a = some r := by
  rw [findRegion_append, h]; rfl

theorem findRegion_eq_none {rs : List Region} {a : Nat} :
    findRegion rs a = none ↔ ∀ r ∈ rs, ¬(r.start ≤ a ∧ a < r.start + r.size) := by
  constructor
  · intro h r hr hcontra
    have := List.find?_eq_none.1 h r hr
    exact this ((regionContains_iff r a).2 hcontra)
  · intro h
    exact List.find?_eq_none.2 fun r hr hc => h r hr ((regionContains_iff r a).1 hc)

theorem GetRegion_eq_some_iff {s : PoolState} {a : Nat} {r : Region} :
    GetRegion s a = some r ↔ a ≠ 0 ∧ findRegion s.g_regions a = some r := by
  unfold GetRegion
  by_cases h : a = 0 <;> simp [h]

theorem GetRegion_mem {s : PoolState} {a : Nat} {r : Region}
    (h : GetRegion s a = some r) :
    r ∈ s.g_regions ∧ r.start ≤ a ∧ a < r.start + r.size := by
  obtain ⟨-, hf⟩ := GetRegion_eq_some_iff.1 h
  exact findRegion_mem hf

/-- With pairwise-separated regions, the scan finds exactly the region
containing the address. -/
theorem findRegion_unique {rs : List Region} (hdisj : rs.Pairwise RegionSep)
    {r : Region} (hr : r ∈ rs) {a : Nat} (h1 : r.start ≤ a) (h2 : a < r.start + r.size) :
    findRegion rs a = some r := by
  induction rs with
  | nil => cases hr
  | cons r0 rest ih =>
    rcases List.mem_cons.1 hr with rfl | hmem
    · unfold findRegion
      exact List.find?_cons_of_pos rest ((regionContains_iff r a).2 ⟨h1, h2⟩)
    · have hsep : RegionSep r0 r := (List.pairwise_cons.1 hdisj).1 r hmem
      have hnc : regionContains r0 a = false := by
        rw [Bool.eq_false_iff]
        intro hc
        obtain ⟨hc1, hc2⟩ := (regionContains_iff r0 a).1 hc
        rcases hsep with hs | hs
        · have : a < r.start := lt_of_lt_of_le hc2
            (le_trans (Nat.add_le_add_left (Nat.le_max_left _ _) _) hs)
          omega
        · have : a < r0.start := lt_of_lt_of_le h2
            (le_trans (Nat.add_le_add_left (Nat.le_max_left _ _) _) hs)
          omega
      unfold findRegion
      rw [List.find?_cons_of_neg rest (by simp [hnc])]
      exact ih (List.pairwise_cons.1 hdisj).2 hmem

theorem GetRegion_unique {s : PoolState} (hdisj : s.g_regions.Pairwise RegionSep)
    {r : Region} (hr : r ∈ s.g_regions) (hr0 : r.start ≠ 0) {a : Nat}
    (h1 : r.start ≤ a) (h2 : a < r.start + r.size) :
    GetRegion s a = some r := by
  have ha : a ≠ 0 := by
    intro h; subst h; omega
  exact GetRegion_eq_some_iff.2 ⟨ha, findRegion_unique hdisj hr h1 h2⟩

/-- A fresh chunk never covers an address lying in the footprint of an
installed region. -/
theorem fresh_not_contains {rs : List Region} {base size : Nat}
    (hfresh : FreshBase rs base size) {r : Region} (hr : r ∈ rs) {a : Nat}
    (h1 : r.start ≤ a) (h2 : a < r.start + max r.size 1)
    (hnew : Region) (hb : hnew.start = base) (hs : hnew.size ≤ size) :
    ¬(hnew.start ≤ a ∧ a < hnew.start + hnew.size) := by
  rintro ⟨hc1, hc2⟩
  rcases hfresh.2 r hr with hle | hle
  · omega
  · have : a < base + max size 1 := by
      have : hnew.size ≤ max size 1 := le_trans hs (Nat.le_max_left _ _)
      omega
    omega

/-! ## Bucket arithmetic -/

theorem bucket_lt {x size K : Nat} (hx : x < size) (hK : 0 < K) :
    x * K / size < K := by
  have hsize : 0 < size := Nat.pos_of_ne_zero (by omega)
  rw [Nat.div_lt_iff_lt_mul hsize, mul_comm K size]
  exact Nat.mul_lt_mul_of_pos_right hx hK

theorem bucket_eq {u b x K : Nat} (hK : 0 < K)
    (h1 : b * u ≤ x) (h2 : x < (b + 1) * u) :
    x * K / (K * u) = b := by
  rw [mul_comm x K, Nat.mul_div_mul_left _ _ hK]
  exact Nat.div_eq_of_lt_le h1 h2

theorem bucketOf_lt {r : Region} {a K : Nat} (hK : 0 < K)
    (h1 : r.start ≤ a) (h2 : a < r.start + r.size) :
    bucketOf r a K < K := by
  unfold bucketOf
  exact bucket_lt (by omega) hK

theorem bucketOf_extent {r : Region} {a b K : Nat} (hK : 0 < K)
    (hdvd : K ∣ r.size)
    (h1 : b * (r.size / K) ≤ a - r.start) (h2 : a - r.start < (b + 1) * (r.size / K)) :
    bucketOf r a K = b := by
  unfold bucketOf
  have hsz : K * (r.size / K) = r.size := Nat.mul_div_cancel' hdvd
  rw [← hsz]
  exact bucket_eq hK h1 h2

/-! ## Invariant preservation -/

theorem inner_length {s : PoolState} (hil : s.idle_list.length = BLOCK_SIZE_COUNT)
    (hii : ∀ li ∈ s.idle_list, li.length = s.g_buckets) {c : Nat} (hc : c < BLOCK_SIZE_COUNT) :
    (s.idle_list.getD c []).length = s.g_buckets := by
  have hlt : c < s.idle_list.length := by omega
  rw [List.getD_eq_getElem?_getD, List.getElem?_eq_getElem hlt]
  exact hii _ (List.getElem_mem hlt)

theorem NodeInv_setIdle_iff (s : PoolState) (c0 b0 : Nat) (l : List IdleNode)
    (c b : Nat) (n : IdleNode) :
    NodeInv (setIdle s c0 b0 l) c b n ↔ NodeInv s c b n := Iff.rfl

theorem NodeInv_setReady_iff (s : PoolState) (c0 : Nat) (l : List IdleNode)
    (c b : Nat) (n : IdleNode) :
    NodeInv (setReady s c0 l) c b n ↔ NodeInv s c b n := Iff.rfl

theorem ReadyInv_setIdle_iff (s : PoolState) (c0 b0 : Nat) (l : List IdleNode)
    (c : Nat) (n : IdleNode) :
    ReadyInv (setIdle s c0 b0 l) c n ↔ ReadyInv s c n := Iff.rfl

theorem ReadyInv_setReady_iff (s : PoolState) (c0 : Nat) (l : List IdleNode)
    (c : Nat) (n : IdleNode) :
    ReadyInv (setReady s c0 l) c n ↔ ReadyInv s c n := Iff.rfl

theorem Inv_setIdle {s : PoolState} {c b : Nat} {l : List IdleNode} (hInv : Inv s)
    (hc : c < BLOCK_SIZE_COUNT) (hb : b < s.g_buckets)
    (hl : ∀ n ∈ l, NodeInv s c b n) : Inv (setIdle s c b l) := by
  obtain ⟨hK, hmax, hnum, hbs, hil, hii, hrl, hwf, hdis, hidle, hready⟩ := hInv
  refine ⟨hK, hmax, hnum, hbs, ?_, ?_, hrl, hwf, hdis, ?_, ?_⟩
  · rw [setIdle_idle_length]; exact hil
  · intro li hli
    rcases List.mem_or_eq_of_mem_set hli with h | h
    · exact hii li h
    · subst h
      rw [List.length_set]
      exact inner_length hil hii hc
  · intro c' hc' b' hb' n hn
    rw [NodeInv_setIdle_iff]
    by_cases hsame : c' = c ∧ b' = b
    · obtain ⟨rfl, rfl⟩ := hsame
      rw [getIdle_setIdle_self s c' b' l (by omega)
        (by rw [inner_length hil hii hc']; omega)] at hn
      exact hl n hn
    · rw [getIdle_setIdle_ne s c b l c' b' (by tauto)] at hn
      exact hidle c' hc' b' hb' n hn
  · intro c' hc' n hn
    rw [ReadyInv_setIdle_iff]
    exact hready c' hc' n hn

theorem Inv_setReady {s : PoolState} {c : Nat} {l : List IdleNode} (hInv : Inv s)
    (hc : c < BLOCK_SIZE_COUNT)
    (hl : ∀ n ∈ l, ReadyInv s c n) : Inv (setReady s c l) := by
  obtain ⟨hK, hmax, hnum, hbs, hil, hii, hrl, hwf, hdis, hidle, hready⟩ := hInv
  refine ⟨hK, hmax, hnum, hbs, hil, hii, ?_, hwf, hdis, ?_, ?_⟩
  · rw [setReady, List.length_set]; exact hrl
  · intro c' hc' b' hb' n hn
    rw [NodeInv_setReady_iff]
    exact hidle c' hc' b' hb' n (by rwa [getIdle_setReady] at hn)
  · intro c' hc' n hn
    rw [ReadyInv_setReady_iff]
    by_cases hsame : c' = c
    · subst hsame
      rw [getReady_setReady_self s c' l (by omega)] at hn
      exact hl n hn
    · rw [getReady_setReady_ne s c l c' hsame] at hn
      exact hready c' hc' n hn

/-! ## Facts about the ready-list walk -/

theorem pickScan_nil (s : PoolState) (i : Nat) : pickScan s i [] = some (none, []) := rfl

theorem pickScan_cons_none {s : PoolState} {i : Nat} {n : IdleNode} {tl : List IdleNode}
    (hG : GetRegion s n.start = none) : pickScan s i (n :: tl) = none := by
  unfold pickScan; rw [hG]

theorem pickScan_cons_hit {s : PoolState} {i : Nat} {n : IdleNode} {tl : List IdleNode}
    {r : Region} (hG : GetRegion s n.start = some r)
    (hb : bucketOf r n.start s.g_buckets = i) :
    pickScan s i (n :: tl) = some (some n, tl) := by
  unfold pickScan; rw [hG]; exact if_pos hb

theorem pickScan_cons_miss {s : PoolState} {i : Nat} {n : IdleNode} {tl : List IdleNode}
    {r : Region} (hG : GetRegion s n.start = some r)
    (hb : ¬bucketOf r n.start s.g_buckets = i) :
    pickScan s i (n :: tl) = (pickScan s i tl).map fun p => (p.1, n :: p.2) := by
  conv_lhs => unfold pickScan
  rw [hG]
  dsimp only
  rw [if_neg hb]

theorem pickScan_rest_sub {s : PoolState} {i : Nat} :
    ∀ {l : List IdleNode} {found : Option IdleNode} {rest : List IdleNode},
      pickScan s i l = some (found, rest) → ∀ m ∈ rest, m ∈ l := by
  intro l
  induction l with
  | nil =>
    intro found rest h m hm
    rw [pickScan_nil] at h
    cases h
    cases hm
  | cons n tl ih =>
    intro found rest h m hm
    cases hG : GetRegion s n.start with
    | none => rw [pickScan_cons_none hG] at h; cases h
    | some r =>
      by_cases hb : bucketOf r n.start s.g_buckets = i
      · rw [pickScan_cons_hit hG hb] at h
        cases h
        exact List.mem_cons_of_mem _ hm
      · rw [pickScan_cons_miss hG hb] at h
        cases hrec : pickScan s i tl with
        | none => rw [hrec] at h; cases h
        | some p =>
          obtain ⟨f2, rest2⟩ := p
          rw [hrec, Option.map_some'] at h
          cases h
          rcases List.mem_cons.1 hm with rfl | hm2
          · exact List.mem_cons_self _ _
          · exact List.mem_cons_of_mem _ (ih hrec m hm2)

theorem pickScan_found {s : PoolState} {i : Nat} :
    ∀ {l : List IdleNode} {n : IdleNode} {rest : List IdleNode},
      pickScan s i l = some (some n, rest) →
      n ∈ l ∧ ∃ r, GetRegion s n.start = some r ∧ bucketOf r n.start s.g_buckets = i := by
  intro l
  induction l with
  | nil =>
    intro n rest h
    rw [pickScan_nil] at h
    cases h
  | cons hd tl ih =>
    intro n rest h
    cases hG : GetRegion s hd.start with
    | none => rw [pickScan_cons_none hG] at h; cases h
    | some r =>
      by_cases hb : bucketOf r hd.start s.g_buckets = i
      · rw [pickScan_cons_hit hG hb] at h
        cases h
        exact ⟨List.mem_cons_self _ _, r, hG, hb⟩
      · rw [pickScan_cons_miss hG hb] at h
        cases hrec : pickScan s i tl with
        | none => rw [hrec] at h; cases h
        | some p =>
          obtain ⟨f2, rest2⟩ := p
          rw [hrec, Option.map_some'] at h
          cases h
          obtain ⟨hmem, hr⟩ := ih hrec
          exact ⟨List.mem_cons_of_mem _ hmem, hr⟩

theorem Inv_pick {s s' : PoolState} {bt index : Nat} (hInv : Inv s)
    (hbt : bt < BLOCK_SIZE_COUNT) (hidx : index < s.g_buckets)
    (h : PickReadyBlocks s bt index = some s') : Inv s' := by
  unfold PickReadyBlocks at h
  cases hscan : pickScan s index (getReady s bt) with
  | none => rw [hscan] at h; cases h
  | some p =>
    obtain ⟨found, rest⟩ := p
    rw [hscan] at h
    cases found with
    | none => cases h; exact hInv
    | some n =>
      cases h
      obtain ⟨hmem, r, hG, hb⟩ := pickScan_found hscan
      have hsub := pickScan_rest_sub hscan
      obtain ⟨hK, hmax, hnum, hbs, hil, hii, hrl, hwf, hdis, hidle, hready⟩ := hInv
      have hInv' : Inv s := ⟨hK, hmax, hnum, hbs, hil, hii, hrl, hwf, hdis, hidle, hready⟩
      have hmid : Inv (setReady s bt rest) :=
        Inv_setReady hInv' hbt fun m hm => hready bt hbt m (hsub m hm)
      refine Inv_setIdle hmid hbt (by simpa using hidx) ?_
      intro m hm
      rcases List.mem_singleton.1 hm with rfl
      have hrmem := (GetRegion_mem hG).1
      obtain ⟨hty, hlen, hdvd, hlo, hhi⟩ :=
        (hready bt hbt m hmem).2 r hrmem hG
      rw [NodeInv_setReady_iff]
      exact ⟨r, hrmem, hG, hty, hlen, hdvd, hb, Or.inr ⟨by rw [← hb]; exact hlo,
        by rw [← hb]; exact hhi⟩⟩

/-! ## Invariant preservation by extension -/

theorem block_size_pos {s : PoolState}
    (hbs : s.g_block_size = [DEFAULT_BLOCK_SIZE, 2 * DEFAULT_BLOCK_SIZE,
      4 * DEFAULT_BLOCK_SIZE, 8 * DEFAULT_BLOCK_SIZE]) {c : Nat} (hc : c < BLOCK_SIZE_COUNT) :
    0 < s.g_block_size.getD c 0 := by
  have h4 : c = 0 ∨ c = 1 ∨ c = 2 ∨ c = 3 := by
    have : c < 4 := hc
    omega
  rw [hbs]
  rcases h4 with rfl | rfl | rfl | rfl <;> decide

@[simp] theorem extendState_g_buckets (s : PoolState) (env : ExtendEnv) (mb bt : Nat) :
    (extendState s env mb bt).g_buckets = s.g_buckets := rfl

@[simp] theorem extendState_g_max_regions (s : PoolState) (env : ExtendEnv) (mb bt : Nat) :
    (extendState s env mb bt).g_max_regions = s.g_max_regions := rfl

@[simp] theorem extendState_g_block_size (s : PoolState) (env : ExtendEnv) (mb bt : Nat) :
    (extendState s env mb bt).g_block_size = s.g_block_size := rfl

@[simp] theorem extendState_idle_list (s : PoolState) (env : ExtendEnv) (mb bt : Nat) :
    (extendState s env mb bt).idle_list = s.idle_list := rfl

@[simp] theorem extendState_g_regions (s : PoolState) (env : ExtendEnv) (mb bt : Nat) :
    (extendState s env mb bt).g_regions
      = s.g_regions ++ [extendedRegion s env mb bt] := rfl

@[simp] theorem getIdle_extendState (s : PoolState) (env : ExtendEnv) (mb bt c b : Nat) :
    getIdle (extendState s env mb bt) c b = getIdle s c b := rfl

theorem regularize_eq (mb bs K : Nat) :
    regularize mb bs K = mb * BYTES_IN_MB / bs / K * (bs * K) := rfl

theorem bsK_dvd_regularize (mb bs K : Nat) : (bs * K) ∣ regularize mb bs K :=
  dvd_mul_left (bs * K) (mb * BYTES_IN_MB / bs / K)

theorem K_dvd_regularize (mb bs K : Nat) : K ∣ regularize mb bs K := by
  refine ⟨mb * BYTES_IN_MB / bs / K * bs, ?_⟩
  rw [regularize_eq]
  ring

theorem regularize_div_K (mb bs K : Nat) (hK : 0 < K) :
    regularize mb bs K / K = mb * BYTES_IN_MB / bs / K * bs := by
  have h : regularize mb bs K = K * (mb * BYTES_IN_MB / bs / K * bs) := by
    rw [regularize_eq]; ring
  rw [h, Nat.mul_div_cancel_left _ hK]

theorem bs_dvd_regularize_div_K (mb bs K : Nat) (hK : 0 < K) :
    bs ∣ regularize mb bs K / K := by
  rw [regularize_div_K mb bs K hK]
  exact dvd_mul_left bs (mb * BYTES_IN_MB / bs / K)

theorem K_mul_regularize_div_K (mb bs K : Nat) :
    K * (regularize mb bs K / K) = regularize mb bs K :=
  Nat.mul_div_cancel' (K_dvd_regularize mb bs K)

theorem GetRegion_extendState_of_some {s : PoolState} {env : ExtendEnv} {mb bt : Nat}
    {a : Nat} {r : Region} (h : GetRegion s a = some r) :
    GetRegion (extendState s env mb bt) a = some r := by
  obtain ⟨ha, hf⟩ := GetRegion_eq_some_iff.1 h
  exact GetRegion_eq_some_iff.2 ⟨ha, by
    rw [extendState_g_regions]
    exact findRegion_append_of_some hf _⟩

theorem NodeInv_extendState {s : PoolState} {env : ExtendEnv} {mb bt c b : Nat}
    {n : IdleNode} (h : NodeInv s c b n) :
    NodeInv (extendState s env mb bt) c b n := by
  obtain ⟨r, hmem, hG, hrest⟩ := h
  exact ⟨r, by rw [extendState_g_regions]; exact List.mem_append_left _ hmem,
    GetRegion_extendState_of_some hG, hrest⟩

/-- An address in the heap footprint of an installed region is missed by
the scan of the old regions iff it is still missed after appending a
fresh region. -/
theorem GetRegion_extendState_of_none {s : PoolState} {env : ExtendEnv} {mb bt : Nat}
    {a : Nat} (hfresh : FreshBase s.g_regions env.base
      (regularize mb (s.g_block_size.getD bt 0) s.g_buckets))
    (hfoot : ∃ r ∈ s.g_regions, r.start ≤ a ∧ a < r.start + max r.size 1)
    (hnone : GetRegion s a = none) :
    GetRegion (extendState s env mb bt) a = none := by
  obtain ⟨rf, hrf, h1, h2⟩ := hfoot
  by_cases ha : a = 0
  · simp [GetRegion, ha]
  · have hf : findRegion s.g_regions a = none := by
      unfold GetRegion at hnone
      rw [if_neg ha] at hnone
      exact hnone
    unfold GetRegion
    rw [if_neg ha, extendState_g_regions, findRegion_append, hf, Option.none_or]
    cases hnew : findRegion [extendedRegion s env mb bt] a with
    | none => rfl
    | some r' =>
      obtain ⟨hmem', hc1, hc2⟩ := findRegion_mem hnew
      rcases List.mem_singleton.1 hmem' with rfl
      exact absurd ⟨hc1, hc2⟩
        (fresh_not_contains hfresh hrf h1 h2 _ rfl (le_refl _))

theorem ReadyInv_extendState_old {s : PoolState} {env : ExtendEnv} {mb bt c : Nat}
    {n : IdleNode} (hfresh : FreshBase s.g_regions env.base
      (regularize mb (s.g_block_size.getD bt 0) s.g_buckets))
    (h : ReadyInv s c n) :
    ReadyInv (extendState s env mb bt) c n := by
  obtain ⟨⟨rf, hrf, hf1, hf2⟩, hall⟩ := h
  constructor
  · exact ⟨rf, by rw [extendState_g_regions]; exact List.mem_append_left _ hrf, hf1, hf2⟩
  · intro r' hmem' hG'
    cases hG : GetRegion s n.start with
    | some r0 =>
      have := @GetRegion_extendState_of_some s env mb bt _ _ hG
      rw [this] at hG'
      cases hG'
      exact hall r' (GetRegion_mem hG).1 hG
    | none =>
      have := GetRegion_extendState_of_none hfresh ⟨rf, hrf, hf1, hf2⟩ hG
      rw [this] at hG'
      cases hG'

theorem ReadyInv_extendState_new {s : PoolState} {env : ExtendEnv} {mb bt : Nat}
    (hK : 0 < s.g_buckets)
    (hfresh : FreshBase s.g_regions env.base
      (regularize mb (s.g_block_size.getD bt 0) s.g_buckets))
    {n : IdleNode} (hn : n ∈ extendNodes s env mb bt) :
    ReadyInv (extendState s env mb bt) bt n := by
  simp only [extendNodes, List.mem_map, List.mem_range] at hn
  obtain ⟨i, hiK, rfl⟩ := hn
  have hKu : s.g_buckets * (regularize mb (s.g_block_size.getD bt 0) s.g_buckets
      / s.g_buckets) = regularize mb (s.g_block_size.getD bt 0) s.g_buckets :=
    K_mul_regularize_div_K mb _ _
  set bs := s.g_block_size.getD bt 0 with hbs_def
  set K := s.g_buckets with hK_def
  set rsize := regularize mb bs K with hrsize_def
  set u := rsize / K with hu_def
  have hlt : i * u < max rsize 1 := by
    by_cases hu0 : u = 0
    · rw [hu0, Nat.mul_zero]
      exact lt_of_lt_of_le Nat.zero_lt_one (le_max_right _ _)
    · have h1 : i * u < K * u :=
        Nat.mul_lt_mul_of_pos_right hiK (Nat.pos_of_ne_zero hu0)
      rw [hKu] at h1
      exact lt_of_lt_of_le h1 (le_max_left _ _)
  have ha0 : env.base + i * u ≠ 0 := by
    have := hfresh.1; omega
  have hold : findRegion s.g_regions (env.base + i * u) = none := by
    rw [findRegion_eq_none]
    rintro r0 hr0 ⟨hc1, hc2⟩
    have hm0 : r0.size ≤ max r0.size 1 := le_max_left _ _
    rcases hfresh.2 r0 hr0 with hle | hle <;> omega
  constructor
  · refine ⟨extendedRegion s env mb bt, ?_, Nat.le_add_right _ _, ?_⟩
    · rw [extendState_g_regions]
      exact List.mem_append_right _ (List.mem_singleton.2 rfl)
    · show env.base + i * u < env.base + max rsize 1
      exact Nat.add_lt_add_left hlt _
  · intro r' hmem' hG'
    unfold GetRegion at hG'
    rw [if_neg ha0, extendState_g_regions, findRegion_append, hold, Option.none_or] at hG'
    obtain ⟨hm1, hcc1, hcc2⟩ := findRegion_mem hG'
    rcases List.mem_singleton.1 hm1 with rfl
    have hrs : i * u < rsize := by
      have : env.base + i * u < env.base + rsize := hcc2
      omega
    have hu : 0 < u := by
      rcases Nat.eq_zero_or_pos u with h0 | h0
      · rw [h0, Nat.mul_zero] at hrs
        rw [← hKu, h0, Nat.mul_zero] at hrs
        omega
      · exact h0
    have hsub : env.base + i * u - (extendedRegion s env mb bt).start = i * u := by
      show env.base + i * u - env.base = i * u
      omega
    have hbu : bucketOf (extendedRegion s env mb bt) (env.base + i * u) K = i := by
      refine bucketOf_extent hK (K_dvd_regularize mb bs K) ?_ ?_
      · rw [hsub]
        exact Nat.le_refl _
      · rw [hsub]
        show i * u < (i + 1) * u
        rw [Nat.succ_mul]
        omega
    refine ⟨rfl, by show u ≠ 0; omega, bs_dvd_regularize_div_K mb bs K hK, ?_, ?_⟩
    · show bucketOf (extendedRegion s env mb bt) (env.base + i * u) K
        * ((extendedRegion s env mb bt).size / K) ≤ env.base + i * u - (extendedRegion s env mb bt).start
      rw [hbu, hsub]
      exact Nat.le_refl _
    · show env.base + i * u - (extendedRegion s env mb bt).start + u
        ≤ (bucketOf (extendedRegion s env mb bt) (env.base + i * u) K + 1)
          * ((extendedRegion s env mb bt).size / K)
      rw [hbu, hsub]
      show i * u + u ≤ (i + 1) * u
      rw [Nat.succ_mul]

theorem Inv_extendState {s : PoolState} {env : ExtendEnv} {mb bt : Nat} (hInv : Inv s)
    (hbt : bt < BLOCK_SIZE_COUNT)
    (hfresh : FreshBase s.g_regions env.base
      (regularize mb (s.g_block_size.getD bt 0) s.g_buckets))
    (hcb : env.cbId % 2 ^ 32 ≠ 0)
    (hroom : s.g_regions.length < s.g_max_regions) :
    Inv (extendState s env mb bt) := by
  obtain ⟨hK, hmax, hnum, hbs, hil, hii, hrl, hwf, hdis, hidle, hready⟩ := hInv
  refine ⟨hK, hmax, ?_, hbs, hil, hii, ?_, ?_, ?_, ?_, ?_⟩
  · rw [extendState_g_regions, List.length_append]
    simp only [List.length_singleton, extendState_g_max_regions]
    omega
  · show (s.ready_list.set bt _).length = BLOCK_SIZE_COUNT
    rw [List.length_set]; exact hrl
  · intro r hmem
    rw [extendState_g_regions] at hmem
    rcases List.mem_append.1 hmem with h | h
    · exact hwf r h
    · rcases List.mem_singleton.1 h with rfl
      exact ⟨hbt, hfresh.1, hcb, bsK_dvd_regularize mb _ _⟩
  · rw [extendState_g_regions, List.pairwise_append]
    refine ⟨hdis, List.pairwise_singleton _ _, ?_⟩
    intro a ha b hb
    rcases List.mem_singleton.1 hb with rfl
    exact hfresh.2 a ha
  · intro c hc b hb n hn
    rw [getIdle_extendState] at hn
    exact NodeInv_extendState (hidle c hc b hb n hn)
  · intro c hc n hn
    by_cases hcb' : c = bt
    · subst hcb'
      have hg : getReady (extendState s env mb c) c
          = (extendNodes s env mb c).reverse ++ s.ready_list.getD c [] := by
        show (s.ready_list.set c _).getD c [] = _
        exact getD_set_self _ _ _ _ (by omega)
      rw [hg] at hn
      rcases List.mem_append.1 hn with h | h
      · exact ReadyInv_extendState_new hK hfresh (List.mem_reverse.1 h)
      · exact ReadyInv_extendState_old hfresh (hready c hc n h)
    · have : getReady (extendState s env mb bt) c = getReady s c := by
        show (s.ready_list.set bt _).getD c [] = s.ready_list.getD c []
        exact getD_set_ne _ _ _ _ _ (fun h => hcb' h.symm)
      rw [this] at hn
      exact ReadyInv_extendState_old hfresh (hready c hc n hn)

/-! ## Branch equations for `ExtendBlockPool` -/

theorem ExtendBlockPool_eq_of_small {s : PoolState} {env : ExtendEnv} {mb bt : Nat}
    (h : mb < 64) : ExtendBlockPool s env mb bt = ⟨none, s, some Err.EINVAL⟩ := by
  unfold ExtendBlockPool; rw [if_pos h]

theorem ExtendBlockPool_eq_of_full {s : PoolState} {env : ExtendEnv} {mb bt : Nat}
    (h1 : ¬mb < 64) (h2 : s.g_regions.length = s.g_max_regions) :
    ExtendBlockPool s env mb bt = ⟨none, s, some Err.ENOMEM⟩ := by
  unfold ExtendBlockPool; rw [if_neg h1, if_pos h2]

theorem ExtendBlockPool_eq_of_nomem {s : PoolState} {env : ExtendEnv} {mb bt : Nat}
    (h1 : ¬mb < 64) (h2 : ¬s.g_regions.length = s.g_max_regions)
    (h3 : env.memOk = false) :
    ExtendBlockPool s env mb bt = ⟨none, s, none⟩ := by
  unfold ExtendBlockPool; rw [if_neg h1, if_neg h2, if_pos h3]

theorem ExtendBlockPool_eq_of_cbzero {s : PoolState} {env : ExtendEnv} {mb bt : Nat}
    (h1 : ¬mb < 64) (h2 : ¬s.g_regions.length = s.g_max_regions)
    (h3 : env.memOk = true) (h4 : env.cbId % 2 ^ 32 = 0) :
    ExtendBlockPool s env mb bt = ⟨none, s, none⟩ := by
  unfold ExtendBlockPool
  rw [if_neg h1, if_neg h2, if_neg (by rw [h3]; exact fun h => Bool.noConfusion h),
    if_pos h4]

theorem ExtendBlockPool_eq_of_nonodes {s : PoolState} {env : ExtendEnv} {mb bt : Nat}
    (h1 : ¬mb < 64) (h2 : ¬s.g_regions.length = s.g_max_regions)
    (h3 : env.memOk = true) (h4 : ¬env.cbId % 2 ^ 32 = 0)
    (h5 : env.poolNodes < s.g_buckets) :
    ExtendBlockPool s env mb bt = ⟨none, s, none⟩ := by
  unfold ExtendBlockPool
  rw [if_neg h1, if_neg h2, if_neg (by rw [h3]; exact fun h => Bool.noConfusion h),
    if_neg h4, if_pos h5]

theorem ExtendBlockPool_eq_of_success {s : PoolState} {env : ExtendEnv} {mb bt : Nat}
    (h1 : ¬mb < 64) (h2 : ¬s.g_regions.length = s.g_max_regions)
    (h3 : env.memOk = true) (h4 : ¬env.cbId % 2 ^ 32 = 0)
    (h5 : ¬env.poolNodes < s.g_buckets) :
    ExtendBlockPool s env mb bt = ⟨some env.base, extendState s env mb bt, none⟩ := by
  unfold ExtendBlockPool
  rw [if_neg h1, if_neg h2, if_neg (by rw [h3]; exact fun h => Bool.noConfusion h),
    if_neg h4, if_neg h5]

theorem Inv_extend {s : PoolState} {env : ExtendEnv} {mb bt : Nat} (hInv : Inv s)
    (hbt : bt < BLOCK_SIZE_COUNT)
    (hfresh : FreshBase s.g_regions env.base
      (regularize mb (s.g_block_size.getD bt 0) s.g_buckets)) :
    Inv (ExtendBlockPool s env mb bt).state := by
  by_cases h1 : mb < 64
  · rw [ExtendBlockPool_eq_of_small h1]; exact hInv
  by_cases h2 : s.g_regions.length = s.g_max_regions
  · rw [ExtendBlockPool_eq_of_full h1 h2]; exact hInv
  by_cases h3 : env.memOk = true
  · by_cases h4 : env.cbId % 2 ^ 32 = 0
    · rw [ExtendBlockPool_eq_of_cbzero h1 h2 h3 h4]; exact hInv
    by_cases h5 : env.poolNodes < s.g_buckets
    · rw [ExtendBlockPool_eq_of_nonodes h1 h2 h3 h4 h5]; exact hInv
    · rw [ExtendBlockPool_eq_of_success h1 h2 h3 h4 h5]
      exact Inv_extendState ⟨hInv.1, hInv.2⟩ hbt hfresh h4
        (Nat.lt_of_le_of_ne (hInv.2.2.1) h2)
  · rw [ExtendBlockPool_eq_of_nomem h1 h2 (Bool.eq_false_iff.2 (by simpa using h3))]
    exact hInv

/-! ## Branch equations for the allocation and deallocation paths -/

theorem pick_preserves {s s' : PoolState} {bt i : Nat}
    (h : PickReadyBlocks s bt i = some s') :
    s'.g_regions = s.g_regions ∧ s'.g_block_size = s.g_block_size ∧
      s'.g_buckets = s.g_buckets ∧ s'.g_max_regions = s.g_max_regions := by
  unfold PickReadyBlocks at h
  cases hscan : pickScan s i (getReady s bt) with
  | none => rw [hscan] at h; cases h
  | some p =>
    obtain ⟨found, rest⟩ := p
    rw [hscan] at h
    cases found with
    | none => cases h; exact ⟨rfl, rfl, rfl, rfl⟩
    | some n => cases h; exact ⟨rfl, rfl, rfl, rfl⟩

theorem takeFromIdle_eq_nil {s : PoolState} {bt index : Nat}
    (h : getIdle s bt index = []) :
    takeFromIdle s bt index = some ⟨none, s, none⟩ := by
  unfold takeFromIdle; rw [h]

theorem takeFromIdle_eq_carve {s : PoolState} {bt index : Nat} {n : IdleNode}
    {rest : List IdleNode} (h : getIdle s bt index = n :: rest)
    (hbig : s.g_block_size.getD bt 0 < n.len) :
    takeFromIdle s bt index = some ⟨some n.start,
      setIdle s bt index
        ({ start := n.start + s.g_block_size.getD bt 0,
           len := n.len - s.g_block_size.getD bt 0 } :: rest), none⟩ := by
  unfold takeFromIdle
  rw [h]
  dsimp only
  rw [if_pos hbig]

theorem takeFromIdle_eq_pop {s : PoolState} {bt index : Nat} {n : IdleNode}
    {rest : List IdleNode} (h : getIdle s bt index = n :: rest)
    (heq : n.len = s.g_block_size.getD bt 0) :
    takeFromIdle s bt index = some ⟨some n.start, setIdle s bt index rest, none⟩ := by
  unfold takeFromIdle
  rw [h]
  dsimp only
  rw [if_neg (by omega), if_pos heq]

theorem AllocBlockFrom_eq_idle {s : PoolState} {env : ExtendEnv} {incr_mb bt index : Nat}
    (h : ¬(getIdle s bt index).isEmpty = true) :
    AllocBlockFrom s env incr_mb bt index = takeFromIdle s bt index := by
  unfold AllocBlockFrom; rw [if_neg h]

theorem AllocBlockFrom_eq_pickfail {s : PoolState} {env : ExtendEnv} {incr_mb bt index : Nat}
    (he : (getIdle s bt index).isEmpty = true)
    (hp : PickReadyBlocks s bt index = none) :
    AllocBlockFrom s env incr_mb bt index = none := by
  unfold AllocBlockFrom; rw [if_pos he, hp]

theorem AllocBlockFrom_eq_picked {s s1 : PoolState} {env : ExtendEnv} {incr_mb bt index : Nat}
    (he : (getIdle s bt index).isEmpty = true)
    (hp : PickReadyBlocks s bt index = some s1)
    (h1 : ¬(getIdle s1 bt index).isEmpty = true) :
    AllocBlockFrom s env incr_mb bt index = takeFromIdle s1 bt index := by
  unfold AllocBlockFrom
  rw [if_pos he, hp]
  dsimp only
  rw [if_neg h1]

theorem AllocBlockFrom_eq_extendfail {s s1 sfail : PoolState} {env : ExtendEnv}
    {incr_mb bt index : Nat} {err : Option Err}
    (he : (getIdle s bt index).isEmpty = true)
    (hp : PickReadyBlocks s bt index = some s1)
    (h1 : (getIdle s1 bt index).isEmpty = true)
    (hE : ExtendBlockPool s1 env incr_mb bt = ⟨none, sfail, err⟩) :
    AllocBlockFrom s env incr_mb bt index = some ⟨none, sfail, err⟩ := by
  unfold AllocBlockFrom
  rw [if_pos he, hp]
  dsimp only
  rw [if_pos h1, hE]

theorem AllocBlockFrom_eq_extendok {s s1 sok s2 : PoolState} {env : ExtendEnv}
    {incr_mb bt index : Nat} {p : Nat} {err : Option Err}
    (he : (getIdle s bt index).isEmpty = true)
    (hp : PickReadyBlocks s bt index = some s1)
    (h1 : (getIdle s1 bt index).isEmpty = true)
    (hE : ExtendBlockPool s1 env incr_mb bt = ⟨some p, sok, err⟩)
    (hp2 : PickReadyBlocks sok bt index = some s2) :
    AllocBlockFrom s env incr_mb bt index = takeFromIdle s2 bt index := by
  unfold AllocBlockFrom
  rw [if_pos he, hp]
  dsimp only
  rw [if_pos h1, hE]
  dsimp only
  rw [hp2]

theorem AllocBlockFrom_eq_extendok_pickfail {s s1 sok : PoolState} {env : ExtendEnv}
    {incr_mb bt index : Nat} {p : Nat} {err : Option Err}
    (he : (getIdle s bt index).isEmpty = true)
    (hp : PickReadyBlocks s bt index = some s1)
    (h1 : (getIdle s1 bt index).isEmpty = true)
    (hE : ExtendBlockPool s1 env incr_mb bt = ⟨some p, sok, err⟩)
    (hp2 : PickReadyBlocks sok bt index = none) :
    AllocBlockFrom s env incr_mb bt index = none := by
  unfold AllocBlockFrom
  rw [if_pos he, hp]
  dsimp only
  rw [if_pos h1, hE]
  dsimp only
  rw [hp2]

theorem AllocBlock_eq_invalid {s : PoolState} {env : ExtendEnv} {incr_mb index size : Nat}
    (h : size = 0 ∨ s.g_block_size.getD (BLOCK_SIZE_COUNT - 1) 0 < size) :
    AllocBlock s env incr_mb index size = some ⟨none, s, some Err.EINVAL⟩ := by
  unfold AllocBlock; rw [if_pos h]

theorem AllocBlock_eq_dispatch {s : PoolState} {env : ExtendEnv} {incr_mb index size c : Nat}
    (h : ¬(size = 0 ∨ s.g_block_size.getD (BLOCK_SIZE_COUNT - 1) 0 < size))
    (hfind : (List.range BLOCK_SIZE_COUNT).find?
      (fun i => decide (size ≤ s.g_block_size.getD i 0)) = some c) :
    AllocBlock s env incr_mb index size = AllocBlockFrom s env incr_mb c index := by
  unfold AllocBlock; rw [if_neg h, hfind]

theorem DeallocBlock_eq_null {s : PoolState} {nodeAvail : Bool} :
    DeallocBlock s nodeAvail 0 = ⟨-1, s, some Err.EINVAL⟩ := by
  unfold DeallocBlock; rw [if_pos rfl]

theorem DeallocBlock_eq_norange {s : PoolState} {nodeAvail : Bool} {buf : Nat}
    (hb : buf ≠ 0) (hG : GetRegion s buf = none) :
    DeallocBlock s nodeAvail buf = ⟨-1, s, some Err.ERANGE⟩ := by
  unfold DeallocBlock; rw [if_neg hb, hG]

theorem DeallocBlock_eq_leak {s : PoolState} {buf : Nat} {r : Region}
    (hb : buf ≠ 0) (hG : GetRegion s buf = some r) :
    DeallocBlock s false buf = ⟨0, s, none⟩ := by
  unfold DeallocBlock
  rw [if_neg hb, hG]
  dsimp only
  rw [if_pos rfl]

theorem DeallocBlock_eq_push {s : PoolState} {buf : Nat} {r : Region}
    (hb : buf ≠ 0) (hG : GetRegion s buf = some r) :
    DeallocBlock s true buf = ⟨0,
      setIdle s r.block_type ((buf - r.start) * s.g_buckets / r.size)
        ({ start := buf, len := s.g_block_size.getD r.block_type 0 } ::
          getIdle s r.block_type ((buf - r.start) * s.g_buckets / r.size)), none⟩ := by
  unfold DeallocBlock
  rw [if_neg hb, hG]
  dsimp only
  rw [if_neg (by exact fun h => Bool.noConfusion h)]

/-! ## Invariant preservation by the take, dealloc and alloc paths -/

theorem NodeInv_carve {s : PoolState} {c b : Nat} {n : IdleNode}
    (hdis : s.g_regions.Pairwise RegionSep)
    (hwf : ∀ r ∈ s.g_regions, RegionWF s.g_block_size s.g_buckets r)
    (hK : 1 ≤ s.g_buckets) (hb : b < s.g_buckets)
    (hn : NodeInv s c b n) (hbig : s.g_block_size.getD c 0 < n.len) :
    NodeInv s c b ⟨n.start + s.g_block_size.getD c 0,
      n.len - s.g_block_size.getD c 0⟩ := by
  obtain ⟨r, hr, hG, hty, hlen0, hdvd, hbuck, hdisj⟩ := hn
  set bs := s.g_block_size.getD c 0 with hbs_def
  set u := r.size / s.g_buckets with hu_def
  have hspan : b * u ≤ n.start - r.start ∧ n.start - r.start + n.len ≤ (b + 1) * u := by
    rcases hdisj with heq | hsp
    · rw [heq] at hbig; exact absurd hbig (lt_irrefl _)
    · exact hsp
  obtain ⟨hc1, hc2⟩ := (GetRegion_mem hG).2
  have hKdvd : s.g_buckets ∣ r.size := by
    have := (hwf r hr).2.2.2
    exact dvd_trans (dvd_mul_left _ _) this
  have hKu : s.g_buckets * u = r.size := Nat.mul_div_cancel' hKdvd
  have hb1K : (b + 1) * u ≤ s.g_buckets * u :=
    Nat.mul_le_mul_right u (Nat.succ_le_of_lt hb)
  have hup : n.start - r.start + bs < (b + 1) * u := by omega
  have hcont : n.start + bs < r.start + r.size := by omega
  have hstart0 : r.start ≠ 0 := (hwf r hr).2.1
  have hG' : GetRegion s (n.start + bs) = some r :=
    GetRegion_unique hdis hr hstart0 (by omega) hcont
  have hlow : b * u ≤ n.start + bs - r.start := by omega
  have hhigh : n.start + bs - r.start < (b + 1) * u := by omega
  have hbuck' : bucketOf r (n.start + bs) s.g_buckets = b :=
    bucketOf_extent (by omega) hKdvd hlow hhigh
  refine ⟨r, hr, hG', hty, ?_, Nat.dvd_sub' hdvd (dvd_refl bs), hbuck',
    Or.inr ⟨hlow, ?_⟩⟩
  · show n.len - bs ≠ 0
    omega
  · show n.start + bs - r.start + (n.len - bs) ≤ (b + 1) * u
    omega

theorem Inv_take {s : PoolState} {bt index : Nat} {res : AllocResult} (hInv : Inv s)
    (hbt : bt < BLOCK_SIZE_COUNT) (hidx : index < s.g_buckets)
    (h : takeFromIdle s bt index = some res) : Inv res.state := by
  cases hl : getIdle s bt index with
  | nil =>
    rw [takeFromIdle_eq_nil hl] at h
    cases h
    exact hInv
  | cons n rest =>
    by_cases hbig : s.g_block_size.getD bt 0 < n.len
    · rw [takeFromIdle_eq_carve hl hbig] at h
      cases h
      refine Inv_setIdle hInv hbt hidx ?_
      intro m hm
      have hidle := hInv.2.2.2.2.2.2.2.2.2.1
      rcases List.mem_cons.1 hm with rfl | hm2
      · exact NodeInv_carve (hInv.2.2.2.2.2.2.2.2.1)
          (hInv.2.2.2.2.2.2.2.1) hInv.1 hidx
          (hidle bt hbt index hidx n (hl ▸ List.mem_cons_self n rest)) hbig
      · exact hidle bt hbt index hidx m (hl ▸ List.mem_cons_of_mem n hm2)
    · by_cases heq : n.len = s.g_block_size.getD bt 0
      · rw [takeFromIdle_eq_pop hl heq] at h
        cases h
        refine Inv_setIdle hInv hbt hidx ?_
        intro m hm
        exact hInv.2.2.2.2.2.2.2.2.2.1 bt hbt index hidx m
          (hl ▸ List.mem_cons_of_mem n hm)
      · rw [show takeFromIdle s bt index = none by
          unfold takeFromIdle
          rw [hl]
          dsimp only
          rw [if_neg hbig, if_neg heq]] at h
        cases h

theorem Inv_dealloc {s : PoolState} (hInv : Inv s) (nodeAvail : Bool) (buf : Nat) :
    Inv (DeallocBlock s nodeAvail buf).state := by
  by_cases hb : buf = 0
  · subst hb
    rw [DeallocBlock_eq_null]
    exact hInv
  cases hG : GetRegion s buf with
  | none =>
    rw [DeallocBlock_eq_norange hb hG]
    exact hInv
  | some r =>
    cases nodeAvail with
    | false =>
      rw [DeallocBlock_eq_leak hb hG]
      exact hInv
    | true =>
      rw [DeallocBlock_eq_push hb hG]
      obtain ⟨hr, hc1, hc2⟩ := GetRegion_mem hG
      have hwf := hInv.2.2.2.2.2.2.2.1
      have hbt4 : r.block_type < BLOCK_SIZE_COUNT := (hwf r hr).1
      have hidx : (buf - r.start) * s.g_buckets / r.size < s.g_buckets :=
        bucket_lt (by omega) hInv.1
      refine Inv_setIdle hInv hbt4 hidx ?_
      intro m hm
      rcases List.mem_cons.1 hm with rfl | hm2
      · refine ⟨r, hr, hG, rfl, ?_, dvd_refl _, rfl, Or.inl rfl⟩
        show s.g_block_size.getD r.block_type 0 ≠ 0
        have := block_size_pos hInv.2.2.2.1 hbt4
        omega
      · exact hInv.2.2.2.2.2.2.2.2.2.1 r.block_type hbt4 _ hidx m hm2

theorem Inv_allocFrom {s : PoolState} {env : ExtendEnv} {incr_mb bt index : Nat}
    {res : AllocResult} (hInv : Inv s)
    (hbt : bt < BLOCK_SIZE_COUNT) (hidx : index < s.g_buckets)
    (hfresh : FreshBase s.g_regions env.base
      (regularize incr_mb (s.g_block_size.getD bt 0) s.g_buckets))
    (h : AllocBlockFrom s env incr_mb bt index = some res) : Inv res.state := by
  by_cases he : (getIdle s bt index).isEmpty = true
  · cases hp : PickReadyBlocks s bt index with
    | none => rw [AllocBlockFrom_eq_pickfail he hp] at h; cases h
    | some s1 =>
      have hInv1 : Inv s1 := Inv_pick hInv hbt hidx hp
      obtain ⟨hpr, hpb, hpk, hpm⟩ := pick_preserves hp
      have hidx1 : index < s1.g_buckets := by rw [hpk]; exact hidx
      have hfresh1 : FreshBase s1.g_regions env.base
          (regularize incr_mb (s1.g_block_size.getD bt 0) s1.g_buckets) := by
        rw [hpr, hpb, hpk]; exact hfresh
      by_cases h1 : (getIdle s1 bt index).isEmpty = true
      · cases hE : ExtendBlockPool s1 env incr_mb bt with
        | mk ret sE errE =>
          cases ret with
          | none =>
            rw [AllocBlockFrom_eq_extendfail he hp h1 hE] at h
            cases h
            have := Inv_extend hInv1 hbt hfresh1
            rw [hE] at this
            exact this
          | some p =>
            have hInvE : Inv sE := by
              have := Inv_extend hInv1 hbt hfresh1
              rw [hE] at this
              exact this
            have hkE : sE.g_buckets = s1.g_buckets := by
              have h5 : ExtendBlockPool s1 env incr_mb bt = ⟨some p, sE, errE⟩ := hE
              by_cases hx1 : incr_mb < 64
              · rw [ExtendBlockPool_eq_of_small hx1] at h5; cases h5
              by_cases hx2 : s1.g_regions.length = s1.g_max_regions
              · rw [ExtendBlockPool_eq_of_full hx1 hx2] at h5; cases h5
              by_cases hx3 : env.memOk = true
              · by_cases hx4 : env.cbId % 2 ^ 32 = 0
                · rw [ExtendBlockPool_eq_of_cbzero hx1 hx2 hx3 hx4] at h5; cases h5
                by_cases hx5 : env.poolNodes < s1.g_buckets
                · rw [ExtendBlockPool_eq_of_nonodes hx1 hx2 hx3 hx4 hx5] at h5; cases h5
                · rw [ExtendBlockPool_eq_of_success hx1 hx2 hx3 hx4 hx5] at h5
                  cases h5
                  rfl
              · rw [ExtendBlockPool_eq_of_nomem hx1 hx2
                  (Bool.eq_false_iff.2 (by simpa using hx3))] at h5
                cases h5
            cases hp2 : PickReadyBlocks sE bt index with
            | none =>
              rw [AllocBlockFrom_eq_extendok_pickfail he hp h1 hE hp2] at h
              cases h
            | some s2 =>
              rw [AllocBlockFrom_eq_extendok he hp h1 hE hp2] at h
              have hInv2 : Inv s2 := Inv_pick hInvE hbt (by rw [hkE]; exact hidx1) hp2
              have hk2 : s2.g_buckets = sE.g_buckets := (pick_preserves hp2).2.2.1
              exact Inv_take hInv2 hbt (by rw [hk2, hkE]; exact hidx1) h
      · rw [AllocBlockFrom_eq_picked he hp h1] at h
        exact Inv_take hInv1 hbt hidx1 h
  · rw [AllocBlockFrom_eq_idle he] at h
    exact Inv_take hInv hbt hidx h

theorem Inv_alloc {s : PoolState} {env : ExtendEnv} {incr_mb index size : Nat}
    {res : AllocResult} (hInv : Inv s) (hidx : index < s.g_buckets)
    (hEnvF : EnvFresh s env incr_mb)
    (h : AllocBlock s env incr_mb index size = some res) : Inv res.state := by
  by_cases hbad : size = 0 ∨ s.g_block_size.getD (BLOCK_SIZE_COUNT - 1) 0 < size
  · rw [AllocBlock_eq_invalid hbad] at h
    cases h
    exact hInv
  · cases hfind : (List.range BLOCK_SIZE_COUNT).find?
        (fun i => decide (size ≤ s.g_block_size.getD i 0)) with
    | none =>
      unfold AllocBlock at h
      rw [if_neg hbad, hfind] at h
      cases h
      exact hInv
    | some c =>
      rw [AllocBlock_eq_dispatch hbad hfind] at h
      have hc4 : c < BLOCK_SIZE_COUNT :=
        List.mem_range.1 (List.mem_of_find?_eq_some hfind)
      exact Inv_allocFrom hInv hc4 hidx (hEnvF c hc4) h

/-! ## The initial state satisfies the invariant -/

theorem getD_replicate {α : Type} (n : Nat) (a d : α) (i : Nat) :
    (List.replicate n a).getD i d = if i < n then a else d := by
  rw [List.getD_eq_getElem?_getD, List.getElem?_replicate]
  by_cases h : i < n
  · rw [if_pos h, if_pos h]; rfl
  · rw [if_neg h, if_neg h]; rfl

theorem getIdle_initState (mrf bf c b : Nat) : getIdle (initState mrf bf) c b = [] := by
  unfold getIdle initState
  dsimp only
  rw [getD_replicate]
  by_cases hc : c < BLOCK_SIZE_COUNT
  · rw [if_pos hc, getD_replicate, ite_self]
  · rw [if_neg hc]
    rfl

theorem getReady_initState (mrf bf c : Nat) : getReady (initState mrf bf) c = [] := by
  unfold getReady initState
  dsimp only
  rw [getD_replicate, ite_self]

theorem Inv_initState (mrf bf : Nat) : Inv (initState mrf bf) := by
  refine ⟨?_, ?_, ?_, rfl, ?_, ?_, ?_, ?_, ?_, ?_, ?_⟩
  · show 1 ≤ (if 1 ≤ bf then bf else 1)
    split <;> omega
  · show (if (if mrf < 1 then 1 else mrf) < MAX_REGIONS
      then (if mrf < 1 then 1 else mrf) else MAX_REGIONS) ≤ MAX_REGIONS
    by_cases h2 : (if mrf < 1 then 1 else mrf) < MAX_REGIONS
    · rw [if_pos h2]; omega
    · rw [if_neg h2]
  · exact Nat.zero_le _
  · exact List.length_replicate _ _
  · intro li hli
    rw [List.eq_of_mem_replicate hli]
    exact List.length_replicate _ _
  · exact List.length_replicate _ _
  · intro r hr
    cases hr
  · exact List.Pairwise.nil
  · intro c hc b hb n hn
    rw [getIdle_initState] at hn
    cases hn
  · intro c hc n hn
    rw [getReady_initState] at hn
    cases hn

/-! ## Every reachable state satisfies the invariant -/

theorem Inv_reachable {s : PoolState} (h : Reachable s) : Inv s := by
  induction h with
  | init imb mrf bf env hfresh =>
    unfold InitBlockPool
    exact Inv_extend (Inv_initState mrf bf) (by decide)
      (hfresh 0 (by decide))
  | step s s' hr hstep ih =>
    cases hstep with
    | alloc env incr index size res hEnvF hidx hA =>
      exact Inv_alloc ih hidx hEnvF hA
    | dealloc nodeAvail buf =>
      exact Inv_dealloc ih nodeAvail buf
    | pick s2 bt index hbt hidx hp =>
      exact Inv_pick ih hbt hidx hp

/-! ## Composition of allocation runs -/

theorem allocSeqLe_zero (incr size cap : Nat) (s : PoolState) :
    allocSeqLe incr size cap 0 s = some s := rfl

theorem allocSeqLe_succ (incr size cap n : Nat) (s : PoolState) :
    allocSeqLe incr size cap (n + 1) s =
      match AllocBlock s (envFor s) incr 0 size with
      | none => none
      | some res =>
        if res.ptr.isSome && decide (res.state.g_regions.length ≤ cap)
        then allocSeqLe incr size cap n res.state else none := by
  conv_lhs => unfold allocSeqLe

theorem allocSeqLe_add (incr size cap a b : Nat) (s : PoolState) :
    allocSeqLe incr size cap (a + b) s =
      (allocSeqLe incr size cap a s).bind (fun s' => allocSeqLe incr size cap b s') := by
  induction a generalizing s with
  | zero =>
    rw [Nat.zero_add, allocSeqLe_zero, Option.some_bind]
  | succ a ih =>
    have hrw : a + 1 + b = (a + b) + 1 := by omega
    rw [hrw, allocSeqLe_succ, allocSeqLe_succ]
    cases hA : AllocBlock s (envFor s) incr 0 size with
    | none => rfl
    | some res =>
      dsimp only
      by_cases hcond : (res.ptr.isSome && decide (res.state.g_regions.length ≤ cap)) = true
      · rw [if_pos hcond, if_pos hcond, ih]
      · rw [if_neg hcond, if_neg hcond]
        rfl

/-! ## Collapsing repeated idle-list updates -/

theorem set_getD_self {α : Type} (l : List α) (i : Nat) (d : α) (h : i < l.length) :
    l.set i (l.getD i d) = l := by
  apply List.ext_getElem?
  intro n
  rw [List.getElem?_set]
  by_cases hin : i = n
  · subst hin
    rw [if_pos rfl, if_pos h, List.getD_eq_getElem?_getD, List.getElem?_eq_getElem h]
    rfl
  · rw [if_neg hin]

theorem setIdle_self (s : PoolState) (c b : Nat)
    (hc : c < s.idle_list.length) (hb : b < (s.idle_list.getD c []).length) :
    setIdle s c b (getIdle s c b) = s := by
  unfold setIdle getIdle
  rw [set_getD_self _ _ _ hb, set_getD_self _ _ _ hc]

theorem setIdle_setIdle (s : PoolState) (c b : Nat) (l l' : List IdleNode)
    (hc : c < s.idle_list.length) :
    setIdle (setIdle s c b l) c b l' = setIdle s c b l' := by
  unfold setIdle
  have h1 : (s.idle_list.set c ((s.idle_list.getD c []).set b l)).getD c []
      = (s.idle_list.getD c []).set b l := getD_set_self _ _ _ _ hc
  rw [h1, List.set_set, List.set_set]

/-! ## One carving allocation, and a run of them -/

theorem alloc_carve_step (s : PoolState) (env : ExtendEnv) (incr size bt a L : Nat)
    (hbad : ¬(size = 0 ∨ s.g_block_size.getD (BLOCK_SIZE_COUNT - 1) 0 < size))
    (hfind : (List.range BLOCK_SIZE_COUNT).find?
      (fun i => decide (size ≤ s.g_block_size.getD i 0)) = some bt)
    (hidle : getIdle s bt 0 = [⟨a, L⟩])
    (hbig : s.g_block_size.getD bt 0 < L) :
    AllocBlock s env incr 0 size = some ⟨some a,
      setIdle s bt 0 [⟨a + s.g_block_size.getD bt 0, L - s.g_block_size.getD bt 0⟩],
      none⟩ := by
  rw [AllocBlock_eq_dispatch hbad hfind,
    AllocBlockFrom_eq_idle (by rw [hidle, List.isEmpty_cons]; exact fun h => Bool.noConfusion h),
    takeFromIdle_eq_carve hidle hbig]

theorem carve_run (incr size cap bt : Nat) :
    ∀ (k : Nat) (s : PoolState) (a L : Nat),
    ¬(size = 0 ∨ s.g_block_size.getD (BLOCK_SIZE_COUNT - 1) 0 < size) →
    (List.range BLOCK_SIZE_COUNT).find?
      (fun i => decide (size ≤ s.g_block_size.getD i 0)) = some bt →
    getIdle s bt 0 = [⟨a, L⟩] →
    bt < s.idle_list.length →
    0 < (s.idle_list.getD bt []).length →
    s.g_regions.length ≤ cap →
    k * s.g_block_size.getD bt 0 < L →
    allocSeqLe incr size cap k s = some (setIdle s bt 0
      [⟨a + k * s.g_block_size.getD bt 0, L - k * s.g_block_size.getD bt 0⟩]) := by
  intro k
  induction k with
  | zero =>
    intro s a L hbad hfind hidle hc hb hcap hlt
    rw [allocSeqLe_zero, Nat.zero_mul, Nat.add_zero, Nat.sub_zero, ← hidle,
      setIdle_self s bt 0 hc hb]
  | succ k ih =>
    intro s a L hbad hfind hidle hc hb hcap hlt
    have hsm : (k + 1) * s.g_block_size.getD bt 0
        = k * s.g_block_size.getD bt 0 + s.g_block_size.getD bt 0 := Nat.succ_mul _ _
    have hbig : s.g_block_size.getD bt 0 < L := by omega
    rw [allocSeqLe_succ, alloc_carve_step s (envFor s) incr size bt a L hbad hfind hidle hbig]
    have hcond : ((some a).isSome && decide
        ((setIdle s bt 0 [⟨a + s.g_block_size.getD bt 0,
          L - s.g_block_size.getD bt 0⟩]).g_regions.length ≤ cap)) = true := by
      rw [setIdle_g_regions]
      simp [hcap]
    dsimp only
    rw [if_pos hcond]
    have hidle' : getIdle (setIdle s bt 0 [⟨a + s.g_block_size.getD bt 0,
        L - s.g_block_size.getD bt 0⟩]) bt 0
        = [⟨a + s.g_block_size.getD bt 0, L - s.g_block_size.getD bt 0⟩] :=
      getIdle_setIdle_self s bt 0 _ hc hb
    have hstep := ih (setIdle s bt 0 [⟨a + s.g_block_size.getD bt 0,
        L - s.g_block_size.getD bt 0⟩]) (a + s.g_block_size.getD bt 0)
      (L - s.g_block_size.getD bt 0) hbad hfind hidle'
      (by rw [setIdle_idle_length]; exact hc)
      (by rw [setIdle_inner_length]; exact hb)
      hcap (by rw [setIdle_g_block_size]; omega)
    simp only [setIdle_g_block_size] at hstep
    rw [hstep, setIdle_setIdle s bt 0 _ _ hc]
    have hn1 : a + s.g_block_size.getD bt 0 + k * s.g_block_size.getD bt 0
        = a + (k + 1) * s.g_block_size.getD bt 0 := by omega
    have hn2 : L - s.g_block_size.getD bt 0 - k * s.g_block_size.getD bt 0
        = L - (k + 1) * s.g_block_size.getD bt 0 := by omega
    rw [hn1, hn2]

/-! ## Error and class tracking along the allocation path -/

theorem takeFromIdle_err {s : PoolState} {bt index : Nat} {res : AllocResult}
    (h : takeFromIdle s bt index = some res) : res.err = none := by
  cases hl : getIdle s bt index with
  | nil => rw [takeFromIdle_eq_nil hl] at h; cases h; rfl
  | cons n rest =>
    by_cases hbig : s.g_block_size.getD bt 0 < n.len
    · rw [takeFromIdle_eq_carve hl hbig] at h; cases h; rfl
    · by_cases heq : n.len = s.g_block_size.getD bt 0
      · rw [takeFromIdle_eq_pop hl heq] at h; cases h; rfl
      · rw [show takeFromIdle s bt index = none by
          unfold takeFromIdle
          rw [hl]
          dsimp only
          rw [if_neg hbig, if_neg heq]] at h
        cases h

theorem ExtendBlockPool_err {s : PoolState} {env : ExtendEnv} {mb bt : Nat}
    (hmb : 64 ≤ mb) :
    (ExtendBlockPool s env mb bt).err = none ∨
      (ExtendBlockPool s env mb bt).err = some Err.ENOMEM := by
  by_cases h2 : s.g_regions.length = s.g_max_regions
  · rw [ExtendBlockPool_eq_of_full (by omega) h2]
    exact Or.inr rfl
  by_cases h3 : env.memOk = true
  · by_cases h4 : env.cbId % 2 ^ 32 = 0
    · rw [ExtendBlockPool_eq_of_cbzero (by omega) h2 h3 h4]; exact Or.inl rfl
    by_cases h5 : env.poolNodes < s.g_buckets
    · rw [ExtendBlockPool_eq_of_nonodes (by omega) h2 h3 h4 h5]; exact Or.inl rfl
    · rw [ExtendBlockPool_eq_of_success (by omega) h2 h3 h4 h5]; exact Or.inl rfl
  · rw [ExtendBlockPool_eq_of_nomem (by omega) h2
      (Bool.eq_false_iff.2 (by simpa using h3))]
    exact Or.inl rfl

theorem AllocBlockFrom_err {s : PoolState} {env : ExtendEnv} {incr_mb bt index : Nat}
    {res : AllocResult} (hincr : 64 ≤ incr_mb)
    (h : AllocBlockFrom s env incr_mb bt index = some res) :
    res.err = none ∨ res.err = some Err.ENOMEM := by
  by_cases he : (getIdle s bt index).isEmpty = true
  · cases hp : PickReadyBlocks s bt index with
    | none => rw [AllocBlockFrom_eq_pickfail he hp] at h; cases h
    | some s1 =>
      by_cases h1 : (getIdle s1 bt index).isEmpty = true
      · cases hE : ExtendBlockPool s1 env incr_mb bt with
        | mk ret sE errE =>
          cases ret with
          | none =>
            rw [AllocBlockFrom_eq_extendfail he hp h1 hE] at h
            cases h
            have := @ExtendBlockPool_err s1 env incr_mb bt hincr
            rw [hE] at this
            exact this
          | some p =>
            cases hp2 : PickReadyBlocks sE bt index with
            | none =>
              rw [AllocBlockFrom_eq_extendok_pickfail he hp h1 hE hp2] at h
              cases h
            | some s2 =>
              rw [AllocBlockFrom_eq_extendok he hp h1 hE hp2] at h
              exact Or.inl (takeFromIdle_err h)
      · rw [AllocBlockFrom_eq_picked he hp h1] at h
        exact Or.inl (takeFromIdle_err h)
  · rw [AllocBlockFrom_eq_idle he] at h
    exact Or.inl (takeFromIdle_err h)

theorem takeFromIdle_type {s : PoolState} {bt index : Nat} {res : AllocResult}
    (hInv : Inv s) (hbt : bt < BLOCK_SIZE_COUNT) (hidx : index < s.g_buckets)
    (h : takeFromIdle s bt index = some res) {p : Nat} (hp : res.ptr = some p) :
    GetBlockType res.state p = (bt : Int) := by
  have hidle := hInv.2.2.2.2.2.2.2.2.2.1
  cases hl : getIdle s bt index with
  | nil =>
    rw [takeFromIdle_eq_nil hl] at h
    cases h
    cases hp
  | cons n rest =>
    have hnode := hidle bt hbt index hidx n (hl ▸ List.mem_cons_self n rest)
    obtain ⟨r, hr, hG, hty, -, -, -, -⟩ := hnode
    by_cases hbig : s.g_block_size.getD bt 0 < n.len
    · rw [takeFromIdle_eq_carve hl hbig] at h
      cases h
      cases hp
      show GetBlockType (setIdle s bt index _) n.start = _
      unfold GetBlockType
      rw [GetRegion_setIdle, hG]
      dsimp only
      rw [hty]
    · by_cases heq : n.len = s.g_block_size.getD bt 0
      · rw [takeFromIdle_eq_pop hl heq] at h
        cases h
        cases hp
        show GetBlockType (setIdle s bt index _) n.start = _
        unfold GetBlockType
        rw [GetRegion_setIdle, hG]
        dsimp only
        rw [hty]
      · rw [show takeFromIdle s bt index = none by
          unfold takeFromIdle
          rw [hl]
          dsimp only
          rw [if_neg hbig, if_neg heq]] at h
        cases h

theorem AllocBlockFrom_type {s : PoolState} {env : ExtendEnv} {incr_mb bt index : Nat}
    {res : AllocResult} (hInv : Inv s)
    (hbt : bt < BLOCK_SIZE_COUNT) (hidx : index < s.g_buckets)
    (hfresh : FreshBase s.g_regions env.base
      (regularize incr_mb (s.g_block_size.getD bt 0) s.g_buckets))
    (h : AllocBlockFrom s env incr_mb bt index = some res) {p : Nat}
    (hp : res.ptr = some p) :
    GetBlockType res.state p = (bt : Int) := by
  by_cases he : (getIdle s bt index).isEmpty = true
  · cases hpk : PickReadyBlocks s bt index with
    | none => rw [AllocBlockFrom_eq_pickfail he hpk] at h; cases h
    | some s1 =>
      have hInv1 : Inv s1 := Inv_pick hInv hbt hidx hpk
      obtain ⟨hpr, hpb, hpk', hpm⟩ := pick_preserves hpk
      have hidx1 : index < s1.g_buckets := by rw [hpk']; exact hidx
      have hfresh1 : FreshBase s1.g_regions env.base
          (regularize incr_mb (s1.g_block_size.getD bt 0) s1.g_buckets) := by
        rw [hpr, hpb, hpk']; exact hfresh
      by_cases h1 : (getIdle s1 bt index).isEmpty = true
      · cases hE : ExtendBlockPool s1 env incr_mb bt with
        | mk ret sE errE =>
          cases ret with
          | none =>
            rw [AllocBlockFrom_eq_extendfail he hpk h1 hE] at h
            cases h
            cases hp
          | some q =>
            have hInvE : Inv sE := by
              have := Inv_extend hInv1 hbt hfresh1
              rw [hE] at this
              exact this
            have hkE : sE.g_buckets = s1.g_buckets := by
              have h5 : ExtendBlockPool s1 env incr_mb bt = ⟨some q, sE, errE⟩ := hE
              by_cases hx1 : incr_mb < 64
              · rw [ExtendBlockPool_eq_of_small hx1] at h5; cases h5
              by_cases hx2 : s1.g_regions.length = s1.g_max_regions
              · rw [ExtendBlockPool_eq_of_full hx1 hx2] at h5; cases h5
              by_cases hx3 : env.memOk = true
              · by_cases hx4 : env.cbId % 2 ^ 32 = 0
                · rw [ExtendBlockPool_eq_of_cbzero hx1 hx2 hx3 hx4] at h5; cases h5
                by_cases hx5 : env.poolNodes < s1.g_buckets
                · rw [ExtendBlockPool_eq_of_nonodes hx1 hx2 hx3 hx4 hx5] at h5
                  cases h5
                · rw [ExtendBlockPool_eq_of_success hx1 hx2 hx3 hx4 hx5] at h5
                  cases h5
                  rfl
              · rw [ExtendBlockPool_eq_of_nomem hx1 hx2
                  (Bool.eq_false_iff.2 (by simpa using hx3))] at h5
                cases h5
            cases hp2 : PickReadyBlocks sE bt index with
            | none =>
              rw [AllocBlockFrom_eq_extendok_pickfail he hpk h1 hE hp2] at h
              cases h
            | some s2 =>
              rw [AllocBlockFrom_eq_extendok he hpk h1 hE hp2] at h
              have hInv2 : Inv s2 := Inv_pick hInvE hbt (by rw [hkE]; exact hidx1) hp2
              have hk2 : s2.g_buckets = sE.g_buckets := (pick_preserves hp2).2.2.1
              exact takeFromIdle_type hInv2 hbt (by rw [hk2, hkE]; exact hidx1) h hp
      · rw [AllocBlockFrom_eq_picked he hpk h1] at h
        exact takeFromIdle_type hInv1 hbt hidx1 h hp
  · rw [AllocBlockFrom_eq_idle he] at h
    exact takeFromIdle_type hInv hbt hidx h hp

/-- The first index in `List.range N` satisfying `f` is below every other
satisfying index. -/
theorem find?_range_first {N c : Nat} {f : Nat → Bool}
    (h : (List.range N).find? f = some c) :
    f c = true ∧ ∀ j, j < c → f j = false := by
  obtain ⟨hfc, as, bs, heq, hall⟩ := List.find?_eq_some.1 h
  have hlenN : as.length < N := by
    have hlen := congrArg List.length heq
    rw [List.length_range, List.length_append, List.length_cons] at hlen
    omega
  have hc : c = as.length := by
    have h1 : (List.range N)[as.length]? = some as.length :=
      List.getElem?_range hlenN
    rw [heq, List.getElem?_append_right (le_refl _), Nat.sub_self,
      List.getElem?_cons_zero] at h1
    exact Option.some.inj h1
  refine ⟨hfc, ?_⟩
  intro j hj
  have hjlen : j < as.length := by omega
  have h2 : (List.range N)[j]? = some j := List.getElem?_range (by omega)
  rw [heq, List.getElem?_append, if_pos hjlen] at h2
  have hmem : j ∈ as := by
    have := List.getElem?_eq_getElem hjlen
    rw [this] at h2
    have hj2 : as[j] = j := Option.some.inj h2
    rw [← hj2]
    exact List.getElem_mem hjlen
  have := hall j hmem
  rw [Bool.not_eq_true'] at this
  exact this

/-! ## Decidability instances and concrete states for witnesses -/

instance RegionSep.dec : DecidableRel RegionSep := fun r1 r2 => by
  unfold RegionSep; infer_instance

instance RegionWF.dec (bs : List Nat) (K : Nat) (r : Region) :
    Decidable (RegionWF bs K r) := by
  unfold RegionWF; infer_instance

instance NodeInv.dec (s : PoolState) (c b : Nat) (n : IdleNode) :
    Decidable (NodeInv s c b n) := by
  unfold NodeInv; infer_instance

instance ReadyInv.dec (s : PoolState) (c : Nat) (n : IdleNode) :
    Decidable (ReadyInv s c n) := by
  unfold ReadyInv; infer_instance

instance Inv.dec (s : PoolState) : Decidable (Inv s) := by
  unfold Inv; infer_instance

instance FreshBase.dec (rs : List Region) (base size : Nat) :
    Decidable (FreshBase rs base size) := by
  unfold FreshBase; infer_instance

instance EnvFresh.dec (s : PoolState) (env : ExtendEnv) (mb : Nat) :
    Decidable (EnvFresh s env mb) := by
  unfold EnvFresh; infer_instance

/-- A benign extension environment for concrete runs. -/
def env0 : ExtendEnv := ⟨true, 2 ^ 30, 1, 1⟩

/-- The pool right after `InitBlockPool` with flags 64 MB / 16 regions /
1 bucket: one 64 MiB class-0 region, its extent on `ready_list[0]`. -/
def sInit : PoolState := (InitBlockPool 64 16 1 env0).state

/-- `sInit` after draining the class-0 ready extent into `idle[0][0]`. -/
def sPicked : PoolState := (PickReadyBlocks sInit 0 0).getD sInit

/-- The pool right after `InitBlockPool` with `max_regions = 1`: already
at the region cap. -/
def sFull : PoolState := (InitBlockPool 64 1 1 env0).state

/-- A fresh-base environment beyond all of `sInit`'s regions. -/
def envW : ExtendEnv := ⟨true, 2 ^ 40, 1, 1⟩

/-! ## First-match characterization of the ready-list walk -/

theorem pickScan_of_first_match {s : PoolState} {b : Nat} {n : IdleNode}
    {post : List IdleNode} {r : Region} (hn : GetRegion s n.start = some r)
    (hb : bucketOf r n.start s.g_buckets = b) :
    ∀ pre : List IdleNode,
      (∀ m ∈ pre, ∃ rm, GetRegion s m.start = some rm ∧
        bucketOf rm m.start s.g_buckets ≠ b) →
      pickScan s b (pre ++ n :: post) = some (some n, pre ++ post) := by
  intro pre
  induction pre with
  | nil =>
    intro _
    rw [List.nil_append, List.nil_append]
    exact pickScan_cons_hit hn hb
  | cons m pre' ih =>
    intro hpre
    obtain ⟨rm, hrm, hbm⟩ := hpre m (List.mem_cons_self _ _)
    rw [List.cons_append, pickScan_cons_miss hrm hbm,
      ih (fun x hx => hpre x (List.mem_cons_of_mem _ hx)), Option.map_some']
    rfl

theorem pickScan_of_no_match {s : PoolState} {b : Nat} :
    ∀ l : List IdleNode,
      (∀ m ∈ l, ∃ rm, GetRegion s m.start = some rm ∧
        bucketOf rm m.start s.g_buckets ≠ b) →
      pickScan s b l = some (none, l) := by
  intro l
  induction l with
  | nil => intro _; exact pickScan_nil s b
  | cons m l' ih =>
    intro hall
    obtain ⟨rm, hrm, hbm⟩ := hall m (List.mem_cons_self _ _)
    rw [pickScan_cons_miss hrm hbm,
      ih (fun x hx => hall x (List.mem_cons_of_mem _ hx)), Option.map_some']

/-! ## The claims -/

/-- C1: after any sequence of Init, Alloc, Dealloc and ready-list
draining operations, every node on `idle[c][b]` lies in an installed
region `r` with `((node.start - r.start) * g_buckets) / r.size = b`, and
its length is a nonzero multiple of `g_block_size[c]`. -/
theorem C1_bucket_shard_invariant (s : PoolState) (hreach : Reachable s)
    (c : Nat) (hc : c < BLOCK_SIZE_COUNT) (b : Nat) (hb : b < s.g_buckets)
    (n : IdleNode) (hn : n ∈ getIdle s c b) :
    (∃ r ∈ s.g_regions, GetRegion s n.start = some r ∧
      (n.start - r.start) * s.g_buckets / r.size = b) ∧
    n.len ≠ 0 ∧ s.g_block_size.getD c 0 ∣ n.len := by
  have hInv := Inv_reachable hreach
  obtain ⟨r, hr, hG, hty, hlen, hdvd, hbuck, -⟩ :=
    hInv.2.2.2.2.2.2.2.2.2.1 c hc b hb n hn
  exact ⟨⟨r, hr, hG, hbuck⟩, hlen, hdvd⟩

/-- Witness for C1: the concrete reachable state `sPicked` has the
class-0 extent on `idle[0][0]`, and the invariant evaluates there. -/
theorem C1_witness :
    (⟨2 ^ 30, 2 ^ 26⟩ : IdleNode) ∈ getIdle sPicked 0 0 ∧
    ((∃ r ∈ sPicked.g_regions, GetRegion sPicked (2 ^ 30) = some r ∧
        (2 ^ 30 - r.start) * sPicked.g_buckets / r.size = 0) ∧
      (2 ^ 26 : Nat) ≠ 0 ∧ sPicked.g_block_size.getD 0 0 ∣ 2 ^ 26) := by
  have hp : PickReadyBlocks sInit 0 0 = some sPicked := by decide
  have hreach : Reachable sPicked :=
    Reachable.step sInit sPicked
      (Reachable.init 64 16 1 env0 (by decide))
      (Step.pick sInit sPicked 0 0 (by decide) (by decide) hp)
  exact ⟨by decide, C1_bucket_shard_invariant sPicked hreach 0 (by decide) 0
    (by decide) ⟨2 ^ 30, 2 ^ 26⟩ (by decide)⟩

/-- C3: `GetRegionId(p)` returns the nonzero `lkey` of the unique
installed region containing `p`, 0 when no region contains `p`, and on
null input returns 0 with the invalid-argument `errno`. -/
theorem C3_get_region_id (s : PoolState) (hInv : Inv s) :
    (∀ p r, r ∈ s.g_regions → r.start ≤ p → p < r.start + r.size →
      GetRegionId s p = r.id ∧ r.id ≠ 0 ∧
      ∀ r' ∈ s.g_regions, r'.start ≤ p → p < r'.start + r'.size → r' = r) ∧
    (∀ p, (∀ r ∈ s.g_regions, ¬(r.start ≤ p ∧ p < r.start + r.size)) →
      GetRegionId s p = 0) ∧
    GetRegionIdE s 0 = (0, some Err.EINVAL) := by
  have hwfall := hInv.2.2.2.2.2.2.2.1
  have hdis := hInv.2.2.2.2.2.2.2.2.1
  refine ⟨?_, ?_, rfl⟩
  · intro p r hr h1 h2
    have hwf := hwfall r hr
    have hG : GetRegion s p = some r := GetRegion_unique hdis hr hwf.2.1 h1 h2
    have hp0 : p ≠ 0 := by
      have := hwf.2.1; omega
    refine ⟨?_, hwf.2.2.1, ?_⟩
    · unfold GetRegionId GetRegionIdE
      rw [if_neg hp0, (GetRegion_eq_some_iff.1 hG).2]
    · intro r' hr' h1' h2'
      have hG' : GetRegion s p = some r' :=
        GetRegion_unique hdis hr' (hwfall r' hr').2.1 h1' h2'
      exact Option.some.inj (hG'.symm.trans hG)
  · intro p hnone
    by_cases hp : p = 0
    · subst hp; rfl
    · unfold GetRegionId GetRegionIdE
      rw [if_neg hp, findRegion_eq_none.2 hnone]

/-- Witness for C3 at `sInit`: an interior pointer maps to lkey 1, an
outside pointer maps to 0, and null yields `(0, EINVAL)`. -/
theorem C3_witness :
    (GetRegionId sInit (2 ^ 30 + 123) = 1 ∧ (1 : Nat) ≠ 0) ∧
    GetRegionId sInit 7 = 0 ∧
    GetRegionIdE sInit 0 = (0, some Err.EINVAL) := by
  have h := C3_get_region_id sInit (by decide)
  refine ⟨?_, ?_, h.2.2⟩
  · have := h.1 (2 ^ 30 + 123) ⟨2 ^ 30, 2 ^ 26, 0, 1⟩ (by decide) (by decide) (by decide)
    exact ⟨this.1, this.2.1⟩
  · exact h.2.1 7 (by decide)

/-- C4: when `ExtendBlockPool` fails after the backing memory was
allocated — zero callback key, or `IdleNode` shortage — the pool state is
returned unchanged (and no `errno` is assigned by the call). -/
theorem C4_failed_extension_atomic (s : PoolState) (env : ExtendEnv) (mb bt : Nat)
    (h1 : 64 ≤ mb) (h2 : s.g_regions.length ≠ s.g_max_regions)
    (h3 : env.memOk = true)
    (h4 : env.cbId % 2 ^ 32 = 0 ∨ env.poolNodes < s.g_buckets) :
    ExtendBlockPool s env mb bt = ⟨none, s, none⟩ := by
  rcases h4 with h4 | h4
  · exact ExtendBlockPool_eq_of_cbzero (by omega) h2 h3 h4
  · by_cases h5 : env.cbId % 2 ^ 32 = 0
    · exact ExtendBlockPool_eq_of_cbzero (by omega) h2 h3 h5
    · exact ExtendBlockPool_eq_of_nonodes (by omega) h2 h3 h5 h4

/-- Witness for C4: a zero registration key at `sInit` leaves the state
untouched. -/
theorem C4_witness :
    ExtendBlockPool sInit ⟨true, 5000, 2 ^ 32, 1⟩ 64 0 = ⟨none, sInit, none⟩ :=
  C4_failed_extension_atomic sInit ⟨true, 5000, 2 ^ 32, 1⟩ 64 0
    (by decide) (by decide) (by decide) (Or.inl (by decide))

/-- C5: a successful extension installs a region of byte size
`size_mb * 2^20 / (class_size * K) * (class_size * K)`, an exact multiple
of `class_size * K`, whose `K` bucket extents of length `size / K` each
hold an integral number of whole blocks. -/
theorem C5_region_regularization (s : PoolState) (env : ExtendEnv) (mb bt : Nat)
    (hK : 1 ≤ s.g_buckets)
    (h1 : 64 ≤ mb) (h2 : s.g_regions.length ≠ s.g_max_regions)
    (h3 : env.memOk = true) (h4 : env.cbId % 2 ^ 32 ≠ 0)
    (h5 : s.g_buckets ≤ env.poolNodes) :
    ∃ r : Region,
      (ExtendBlockPool s env mb bt).state.g_regions = s.g_regions ++ [r] ∧
      r.size = mb * BYTES_IN_MB / (s.g_block_size.getD bt 0 * s.g_buckets)
        * (s.g_block_size.getD bt 0 * s.g_buckets) ∧
      (s.g_block_size.getD bt 0 * s.g_buckets) ∣ r.size ∧
      s.g_buckets * (r.size / s.g_buckets) = r.size ∧
      s.g_block_size.getD bt 0 ∣ (r.size / s.g_buckets) := by
  rw [ExtendBlockPool_eq_of_success (by omega) h2 h3 h4 (by omega)]
  refine ⟨extendedRegion s env mb bt, rfl, ?_, ?_, ?_, ?_⟩
  · show regularize mb (s.g_block_size.getD bt 0) s.g_buckets = _
    rw [regularize_eq, Nat.div_div_eq_div_mul]
  · exact bsK_dvd_regularize mb _ _
  · exact K_mul_regularize_div_K mb _ _
  · exact bs_dvd_regularize_div_K mb _ _ hK

/-- Witness for C5: extending `sInit` with 64 MB of class 2. -/
theorem C5_witness :
    ∃ r : Region,
      (ExtendBlockPool sInit envW 64 2).state.g_regions = sInit.g_regions ++ [r] ∧
      r.size = 64 * BYTES_IN_MB / (sInit.g_block_size.getD 2 0 * sInit.g_buckets)
        * (sInit.g_block_size.getD 2 0 * sInit.g_buckets) ∧
      (sInit.g_block_size.getD 2 0 * sInit.g_buckets) ∣ r.size ∧
      sInit.g_buckets * (r.size / sInit.g_buckets) = r.size ∧
      sInit.g_block_size.getD 2 0 ∣ (r.size / sInit.g_buckets) :=
  C5_region_regularization sInit envW 64 2 (by decide) (by decide) (by decide)
    (by decide) (by decide) (by decide)

/-- C2: an `AllocBlock(size)` call returns null with `errno = EINVAL` iff
`size` is zero or exceeds the largest class size; otherwise it is served
by the smallest class `c` with `class_size[c] ≥ size`, and any returned
pointer has `GetBlockType = c`. -/
theorem C2_alloc_class_selection (s : PoolState) (env : ExtendEnv)
    (incr_mb index size : Nat) (res : AllocResult)
    (hInv : Inv s) (hincr : 64 ≤ incr_mb) (hidx : index < s.g_buckets)
    (hEnvF : EnvFresh s env incr_mb)
    (h : AllocBlock s env incr_mb index size = some res) :
    ((res.ptr = none ∧ res.err = some Err.EINVAL) ↔
      (size = 0 ∨ s.g_block_size.getD (BLOCK_SIZE_COUNT - 1) 0 < size)) ∧
    ∀ c, (List.range BLOCK_SIZE_COUNT).find?
        (fun i => decide (size ≤ s.g_block_size.getD i 0)) = some c →
      (size ≤ s.g_block_size.getD c 0 ∧
        ∀ j, j < c → s.g_block_size.getD j 0 < size) ∧
      ∀ p, res.ptr = some p → GetBlockType res.state p = (c : Int) := by
  by_cases hbad : size = 0 ∨ s.g_block_size.getD (BLOCK_SIZE_COUNT - 1) 0 < size
  · rw [AllocBlock_eq_invalid hbad] at h
    cases h
    refine ⟨iff_of_true ⟨rfl, rfl⟩ hbad, ?_⟩
    intro c hfind
    obtain ⟨hfc, hjlt⟩ := find?_range_first hfind
    refine ⟨⟨by simpa using hfc, fun j hj => by
      have := hjlt j hj
      simpa using this⟩, ?_⟩
    intro p hp
    cases hp
  · cases hfind0 : (List.range BLOCK_SIZE_COUNT).find?
        (fun i => decide (size ≤ s.g_block_size.getD i 0)) with
    | none =>
      exfalso
      have h3mem : 3 ∈ List.range BLOCK_SIZE_COUNT := by decide
      have hn := List.find?_eq_none.1 hfind0 3 h3mem
      apply hn
      have h3' : ¬s.g_block_size.getD 3 0 < size := (not_or.1 hbad).2
      simp only [decide_eq_true_eq]
      omega
    | some c0 =>
      rw [AllocBlock_eq_dispatch hbad hfind0] at h
      have hc04 : c0 < BLOCK_SIZE_COUNT :=
        List.mem_range.1 (List.mem_of_find?_eq_some hfind0)
      constructor
      · refine iff_of_false ?_ hbad
        rintro ⟨-, herr⟩
        rcases AllocBlockFrom_err hincr h with h0 | h0 <;> rw [h0] at herr <;> cases herr
      · intro c hfind
        have hc : c0 = c := Option.some.inj hfind
        subst hc
        obtain ⟨hfc, hjlt⟩ := find?_range_first hfind0
        refine ⟨⟨by simpa using hfc, fun j hj => by
          have := hjlt j hj
          simpa using this⟩, ?_⟩
        intro p hp
        exact AllocBlockFrom_type hInv hc04 hidx (hEnvF c0 hc04) h hp

/-- The result of one class-0 allocation from `sPicked`, for the C2
witness. -/
def c2res : AllocResult := (AllocBlock sPicked envW 64 0 8192).getD ⟨none, sPicked, none⟩

/-- Witness for C2: a concrete 8192-byte allocation from `sPicked`. -/
theorem C2_witness :
    ((c2res.ptr = none ∧ c2res.err = some Err.EINVAL) ↔
      ((8192 : Nat) = 0 ∨ sPicked.g_block_size.getD (BLOCK_SIZE_COUNT - 1) 0 < 8192)) ∧
    ∀ c, (List.range BLOCK_SIZE_COUNT).find?
        (fun i => decide ((8192 : Nat) ≤ sPicked.g_block_size.getD i 0)) = some c →
      ((8192 : Nat) ≤ sPicked.g_block_size.getD c 0 ∧
        ∀ j, j < c → sPicked.g_block_size.getD j 0 < 8192) ∧
      ∀ p, c2res.ptr = some p → GetBlockType c2res.state p = (c : Int) :=
  C2_alloc_class_selection sPicked envW 64 0 8192 c2res (by decide) (by decide)
    (by decide) (by decide) (by decide)

/-- C6: the number of installed regions never exceeds `g_max_regions`
(itself at most 16) in any reachable state; extension at the cap fails
with `ENOMEM` leaving the state unchanged; and an `AllocBlock` that needs
such an extension returns null with `errno = ENOMEM`. -/
theorem C6_region_cap :
    (∀ s : PoolState, Reachable s →
      GetRegionNum s ≤ s.g_max_regions ∧ s.g_max_regions ≤ MAX_REGIONS) ∧
    (∀ (s : PoolState) (env : ExtendEnv) (mb bt : Nat), 64 ≤ mb →
      GetRegionNum s = s.g_max_regions →
      ExtendBlockPool s env mb bt = ⟨none, s, some Err.ENOMEM⟩) ∧
    (∀ (s s1 : PoolState) (env : ExtendEnv) (incr_mb index size c : Nat),
      64 ≤ incr_mb →
      ¬(size = 0 ∨ s.g_block_size.getD (BLOCK_SIZE_COUNT - 1) 0 < size) →
      (List.range BLOCK_SIZE_COUNT).find?
        (fun i => decide (size ≤ s.g_block_size.getD i 0)) = some c →
      getIdle s c index = [] →
      PickReadyBlocks s c index = some s1 →
      getIdle s1 c index = [] →
      GetRegionNum s1 = s1.g_max_regions →
      AllocBlock s env incr_mb index size = some ⟨none, s1, some Err.ENOMEM⟩) := by
  refine ⟨?_, ?_, ?_⟩
  · intro s h
    have hInv := Inv_reachable h
    exact ⟨hInv.2.2.1, hInv.2.1⟩
  · intro s env mb bt hmb hfull
    exact ExtendBlockPool_eq_of_full (by omega) hfull
  · intro s s1 env incr index size c hincr hbad hfind hempty hp hempty1 hfull
    rw [AllocBlock_eq_dispatch hbad hfind]
    have hE : ExtendBlockPool s1 env incr c = ⟨none, s1, some Err.ENOMEM⟩ :=
      ExtendBlockPool_eq_of_full (by omega) hfull
    exact AllocBlockFrom_eq_extendfail (by rw [hempty]; rfl) hp
      (by rw [hempty1]; rfl) hE

/-- Witness for C6 at the at-cap state `sFull` (`max_regions = 1`). -/
theorem C6_witness :
    (GetRegionNum sFull ≤ sFull.g_max_regions ∧ sFull.g_max_regions ≤ MAX_REGIONS) ∧
    ExtendBlockPool sFull envW 64 0 = ⟨none, sFull, some Err.ENOMEM⟩ ∧
    AllocBlock sFull envW 64 0 16384 = some ⟨none, sFull, some Err.ENOMEM⟩ := by
  refine ⟨?_, ?_, ?_⟩
  · exact C6_region_cap.1 sFull (Reachable.init 64 1 1 env0 (by decide))
  · exact C6_region_cap.2.1 sFull envW 64 0 (by decide) (by decide)
  · exact C6_region_cap.2.2 sFull sFull envW 64 0 16384 1 (by decide) (by decide)
      (by decide) (by decide) (by decide) (by decide) (by decide)

/-- C7: called when `idle[c][b]` is empty, `PickReadyBlocks` detaches the
first ready node whose bucket is `b` and makes it the content of
`idle[c][b]`, the other ready nodes staying in order; with no matching
node, the state is unchanged. -/
theorem C7_pick_ready_first_match (s : PoolState) (c b : Nat)
    (_hidle : getIdle s c b = []) :
    (∀ pre n post r, getReady s c = pre ++ n :: post →
      (∀ m ∈ pre, ∃ rm, GetRegion s m.start = some rm ∧
        bucketOf rm m.start s.g_buckets ≠ b) →
      GetRegion s n.start = some r → bucketOf r n.start s.g_buckets = b →
      PickReadyBlocks s c b = some (setIdle (setReady s c (pre ++ post)) c b [n])) ∧
    ((∀ m ∈ getReady s c, ∃ rm, GetRegion s m.start = some rm ∧
        bucketOf rm m.start s.g_buckets ≠ b) →
      PickReadyBlocks s c b = some s) := by
  constructor
  · intro pre n post r hsplit hpre hr hb
    unfold PickReadyBlocks
    rw [hsplit, pickScan_of_first_match hr hb pre hpre]
  · intro hall
    unfold PickReadyBlocks
    rw [pickScan_of_no_match _ hall]

/-- Witness for C7: draining the class-0 ready extent of `sInit` into
bucket 0, and the no-match case on the empty class-1 ready list. -/
theorem C7_witness :
    PickReadyBlocks sInit 0 0
      = some (setIdle (setReady sInit 0 ([] ++ [])) 0 0 [⟨2 ^ 30, 2 ^ 26⟩]) ∧
    PickReadyBlocks sInit 1 0 = some sInit := by
  constructor
  · exact (C7_pick_ready_first_match sInit 0 0 (by decide)).1 [] ⟨2 ^ 30, 2 ^ 26⟩ []
      ⟨2 ^ 30, 2 ^ 26, 0, 1⟩ (by decide) (by intro m hm; cases hm) (by decide) (by decide)
  · exact (C7_pick_ready_first_match sInit 1 0 (by decide)).2
      (by intro m hm; rw [show getReady sInit 1 = [] from rfl] at hm; cases hm)

/-- C8: with the object pool available, `DeallocBlock(buf)` returns -1
iff `buf` is null (`EINVAL`) or in no installed region (`ERANGE`); for
any pointer inside a region it pushes `(buf, class_size)` onto
`idle[class][bucket_of buf]` and returns 0. -/
theorem C8_dealloc_raises_iff (s : PoolState) (buf : Nat) :
    ((DeallocBlock s true buf).ret = -1 ↔ (buf = 0 ∨ GetRegion s buf = none)) ∧
    (buf = 0 → DeallocBlock s true buf = ⟨-1, s, some Err.EINVAL⟩) ∧
    (buf ≠ 0 → GetRegion s buf = none →
      DeallocBlock s true buf = ⟨-1, s, some Err.ERANGE⟩) ∧
    (∀ r, GetRegion s buf = some r →
      DeallocBlock s true buf = ⟨0,
        setIdle s r.block_type ((buf - r.start) * s.g_buckets / r.size)
          ({ start := buf, len := s.g_block_size.getD r.block_type 0 } ::
            getIdle s r.block_type ((buf - r.start) * s.g_buckets / r.size)),
        none⟩) := by
  refine ⟨?_, ?_, ?_, ?_⟩
  · by_cases hb : buf = 0
    · subst hb
      rw [DeallocBlock_eq_null]
      exact iff_of_true rfl (Or.inl rfl)
    · cases hG : GetRegion s buf with
      | none =>
        rw [DeallocBlock_eq_norange hb hG]
        exact iff_of_true rfl (Or.inr rfl)
      | some r =>
        rw [DeallocBlock_eq_push hb hG]
        refine iff_of_false ?_ ?_
        · intro h
          have h' : (0 : Int) = -1 := h
          omega
        · rintro (h | h)
          · exact hb h
          · cases h
  · intro h
    subst h
    exact DeallocBlock_eq_null
  · intro hb hG
    exact DeallocBlock_eq_norange hb hG
  · intro r hG
    have hb : buf ≠ 0 := by
      intro h
      subst h
      rw [show GetRegion s 0 = none from rfl] at hG
      cases hG
    exact DeallocBlock_eq_push hb hG

/-- Witness for C8 at `sInit`: null, out-of-range and in-region inputs. -/
theorem C8_witness :
    DeallocBlock sInit true 0 = ⟨-1, sInit, some Err.EINVAL⟩ ∧
    DeallocBlock sInit true 7 = ⟨-1, sInit, some Err.ERANGE⟩ ∧
    DeallocBlock sInit true (2 ^ 30) = ⟨0,
      setIdle sInit 0 ((2 ^ 30 - 2 ^ 30) * sInit.g_buckets / 2 ^ 26)
        ({ start := 2 ^ 30, len := sInit.g_block_size.getD 0 0 } ::
          getIdle sInit 0 ((2 ^ 30 - 2 ^ 30) * sInit.g_buckets / 2 ^ 26)),
      none⟩ := by
  refine ⟨(C8_dealloc_raises_iff sInit 0).2.1 rfl,
    (C8_dealloc_raises_iff sInit 7).2.2.1 (by decide) (by decide), ?_⟩
  exact (C8_dealloc_raises_iff sInit (2 ^ 30)).2.2.2 ⟨2 ^ 30, 2 ^ 26, 0, 1⟩ (by decide)

/-- C9: when the `IdleNode` object pool is exhausted, deallocating a
pointer that lies in an installed region still returns 0 and leaves the
pool state entirely unchanged (the block is leaked). -/
theorem C9_dealloc_exhausted_leaks (s : PoolState) (buf : Nat) (r : Region)
    (hG : GetRegion s buf = some r) :
    DeallocBlock s false buf = ⟨0, s, none⟩ := by
  have hb : buf ≠ 0 := by
    intro h
    subst h
    rw [show GetRegion s 0 = none from rfl] at hG
    cases hG
  exact DeallocBlock_eq_leak hb hG

/-- Witness for C9: an exhausted-pool dealloc of an interior pointer of
`sInit` is a no-op returning 0. -/
theorem C9_witness : DeallocBlock sInit false (2 ^ 30 + 8192) = ⟨0, sInit, none⟩ :=
  C9_dealloc_exhausted_leaks sInit (2 ^ 30 + 8192) ⟨2 ^ 30, 2 ^ 26, 0, 1⟩ (by decide)

/-! ## C10: the extension scenario

The intermediate states of the two concrete 4096-allocation runs.  Each
`q` state is the result of the one allocation that triggers an extension
(or drains the initial extent), each run between them is a pure carving
run handled by `carve_run`, and each `p` state follows the allocation
that pops the exhausted extent node. -/

def c10q1 : PoolState := (allocSeqLe 64 65534 5 1 sInit).getD sInit

def c10r1 : PoolState := setIdle c10q1 3 0
  [⟨2 ^ 31 + 65536 + 1022 * c10q1.g_block_size.getD 3 0,
    1023 * 65536 - 1022 * c10q1.g_block_size.getD 3 0⟩]

def c10p2 : PoolState := (allocSeqLe 64 65534 5 1 c10r1).getD sInit

def c10q2 : PoolState := (allocSeqLe 64 65534 5 1 c10p2).getD sInit

def c10r2 : PoolState := setIdle c10q2 3 0
  [⟨3 * 2 ^ 30 + 65536 + 1022 * c10q2.g_block_size.getD 3 0,
    1023 * 65536 - 1022 * c10q2.g_block_size.getD 3 0⟩]

def c10p3 : PoolState := (allocSeqLe 64 65534 5 1 c10r2).getD sInit

def c10q3 : PoolState := (allocSeqLe 64 65534 5 1 c10p3).getD sInit

def c10r3 : PoolState := setIdle c10q3 3 0
  [⟨2 ^ 32 + 65536 + 1022 * c10q3.g_block_size.getD 3 0,
    1023 * 65536 - 1022 * c10q3.g_block_size.getD 3 0⟩]

def c10p4 : PoolState := (allocSeqLe 64 65534 5 1 c10r3).getD sInit

def c10q4 : PoolState := (allocSeqLe 64 65534 5 1 c10p4).getD sInit

def c10r4 : PoolState := setIdle c10q4 3 0
  [⟨5 * 2 ^ 30 + 65536 + 1022 * c10q4.g_block_size.getD 3 0,
    1023 * 65536 - 1022 * c10q4.g_block_size.getD 3 0⟩]

def c10p5 : PoolState := (allocSeqLe 64 65534 5 1 c10r4).getD sInit

/-- The state after the first allocation of the class-0 run. -/
def c10z1 : PoolState := (allocSeqLe 64 8192 1 1 sInit).getD sInit

/-- C10 counterexample: on the concrete run required by the claim —
`Init` with 64 MiB regions, one bucket, `max_regions = 16`; then 4096
class-0 allocations (`AllocBlock 8192`), all succeeding — the region
count stays 1 at every step and never reaches 5. -/
theorem C10_counterexample :
    (InitBlockPool 64 16 1 env0).ret.isSome = true ∧
    GetRegionNum (InitBlockPool 64 16 1 env0).state = 1 ∧
    (allocSeqLe 64 8192 1 4096 (InitBlockPool 64 16 1 env0).state).map GetRegionNum
      = some 1 := by
  refine ⟨by decide, by decide, ?_⟩
  show (allocSeqLe 64 8192 1 4096 sInit).map GetRegionNum = some 1
  have hB : allocSeqLe 64 8192 1 1 sInit = some c10z1 := by decide
  have hC : allocSeqLe 64 8192 1 4095 c10z1 = some (setIdle c10z1 0 0
      [⟨2 ^ 30 + 8192 + 4095 * c10z1.g_block_size.getD 0 0,
        2 ^ 26 - 8192 - 4095 * c10z1.g_block_size.getD 0 0⟩]) :=
    carve_run 64 8192 1 0 4095 c10z1 (2 ^ 30 + 8192) (2 ^ 26 - 8192)
      (by decide) (by decide) (by decide) (by decide) (by decide) (by decide)
      (by decide)
  rw [show (4096 : Nat) = 1 + 4095 by decide, allocSeqLe_add, hB,
    Option.some_bind, hC, Option.map_some']
  decide

/-- C10 amended: same configuration, but with 4096 class-3 allocations
(`AllocBlock 65534`, served by class 3 of block size 65536): all succeed
and `GetRegionNum` reaches 5. -/
theorem C10_amended_extension_scenario :
    (InitBlockPool 64 16 1 env0).ret.isSome = true ∧
    GetRegionNum (InitBlockPool 64 16 1 env0).state = 1 ∧
    (allocSeqLe 64 65534 5 4096 (InitBlockPool 64 16 1 env0).state).map GetRegionNum
      = some 5 := by
  refine ⟨by decide, by decide, ?_⟩
  show (allocSeqLe 64 65534 5 4096 sInit).map GetRegionNum = some 5
  have hB1 : allocSeqLe 64 65534 5 1 sInit = some c10q1 := by decide
  have hC1 : allocSeqLe 64 65534 5 1022 c10q1 = some c10r1 :=
    carve_run 64 65534 5 3 1022 c10q1 (2 ^ 31 + 65536) (1023 * 65536)
      (by decide) (by decide) (by decide) (by decide) (by decide) (by decide)
      (by decide)
  have hP1 : allocSeqLe 64 65534 5 1 c10r1 = some c10p2 := by decide
  have hS1 : allocSeqLe 64 65534 5 1024 sInit = some c10p2 := by
    rw [show (1024 : Nat) = 1 + (1022 + 1) by decide, allocSeqLe_add, hB1,
      Option.some_bind, allocSeqLe_add, hC1, Option.some_bind, hP1]
  have hB2 : allocSeqLe 64 65534 5 1 c10p2 = some c10q2 := by decide
  have hC2 : allocSeqLe 64 65534 5 1022 c10q2 = some c10r2 :=
    carve_run 64 65534 5 3 1022 c10q2 (3 * 2 ^ 30 + 65536) (1023 * 65536)
      (by decide) (by decide) (by decide) (by decide) (by decide) (by decide)
      (by decide)
  have hP2 : allocSeqLe 64 65534 5 1 c10r2 = some c10p3 := by decide
  have hS2 : allocSeqLe 64 65534 5 1024 c10p2 = some c10p3 := by
    rw [show (1024 : Nat) = 1 + (1022 + 1) by decide, allocSeqLe_add, hB2,
      Option.some_bind, allocSeqLe_add, hC2, Option.some_bind, hP2]
  have hB3 : allocSeqLe 64 65534 5 1 c10p3 = some c10q3 := by decide
  have hC3 : allocSeqLe 64 65534 5 1022 c10q3 = some c10r3 :=
    carve_run 64 65534 5 3 1022 c10q3 (2 ^ 32 + 65536) (1023 * 65536)
      (by decide) (by decide) (by decide) (by decide) (by decide) (by decide)
      (by decide)
  have hP3 : allocSeqLe 64 65534 5 1 c10r3 = some c10p4 := by decide
  have hS3 : allocSeqLe 64 65534 5 1024 c10p3 = some c10p4 := by
    rw [show (1024 : Nat) = 1 + (1022 + 1) by decide, allocSeqLe_add, hB3,
      Option.some_bind, allocSeqLe_add, hC3, Option.some_bind, hP3]
  have hB4 : allocSeqLe 64 65534 5 1 c10p4 = some c10q4 := by decide
  have hC4 : allocSeqLe 64 65534 5 1022 c10q4 = some c10r4 :=
    carve_run 64 65534 5 3 1022 c10q4 (5 * 2 ^ 30 + 65536) (1023 * 65536)
      (by decide) (by decide) (by decide) (by decide) (by decide) (by decide)
      (by decide)
  have hP4 : allocSeqLe 64 65534 5 1 c10r4 = some c10p5 := by decide
  have hS4 : allocSeqLe 64 65534 5 1024 c10p4 = some c10p5 := by
    rw [show (1024 : Nat) = 1 + (1022 + 1) by decide, allocSeqLe_add, hB4,
      Option.some_bind, allocSeqLe_add, hC4, Option.some_bind, hP4]
  rw [show (4096 : Nat) = 1024 + (1024 + (1024 + 1024)) by decide,
    allocSeqLe_add, hS1, Option.some_bind, allocSeqLe_add, hS2, Option.some_bind,
    allocSeqLe_add, hS3, Option.some_bind, hS4, Option.map_some']
  decide

end BlockPool
